import Mathlib

/-!
Verification of the repair-and-execute PDF pipeline
(`src/pdf_generator_all_in_one.py`) against its design specification.

Snippets are modelled as `List Char`.  The textual rewrite rules, the
safety filter and the `/generate` coordinator are shallowly embedded from
the source; the executors' effects on the operating system (in-process
`exec`, weasyprint / wkhtmltopdf rendering, the working-directory scan and
`os.path` queries) are parameters of an `ExecEnv` oracle, while their
control flow (temp-file creation/deletion, error propagation, artifact
path selection) is embedded from the source.

Note on the source text: the source file suffered an encoding corruption
in its "smart quote" rules.  What the comments describe as smart-quote
literals are, in the file as it stands, a plain `"`, the string
`" in code or "`, the string `", \"'\").replace("` and a dict key spanning
a comment and a newline.  The embedding below reproduces the file as it
parses (checked against Python's own `ast` module), not as it was
evidently intended.
-/

set_option maxHeartbeats 2000000
set_option maxRecDepth 20000

namespace Inks

/-- Lowercase a character the way Python's `str.lower` acts on ASCII letters
(the only characters relevant to the dialect tags and patterns here). -/
def lowerChar (c : Char) : Char :=
  if 'A' ≤ c ∧ c ≤ 'Z' then Char.ofNat (c.toNat + 32) else c

/-- Python `str.lower` on a snippet (ASCII range). -/
def lowerStr (s : List Char) : List Char := s.map lowerChar

/-- Whitespace recognized by Python's `str.strip`. -/
def pyWS (c : Char) : Bool :=
  c = ' ' || c = '\t' || c = '\n' || c = '\r' || c = '\x0b' || c = '\x0c'

/-- Python `str.strip`: remove leading and trailing whitespace. -/
def pyStrip (s : List Char) : List Char :=
  List.reverse (List.dropWhile pyWS (List.reverse (List.dropWhile pyWS s)))

/-- `hasPre p s` holds when `p` is a prefix of `s` (Python `startswith`). -/
def hasPre : List Char → List Char → Bool
  | [], _ => true
  | _ :: _, [] => false
  | p :: ps, c :: cs => p = c && hasPre ps cs

/-- Python's substring test `pat in s`. -/
def occursB (pat : List Char) : List Char → Bool
  | [] => pat.isEmpty
  | c :: s => hasPre pat (c :: s) || occursB pat s

/-- Number of positions of `s` at which `pat` matches. -/
def countOcc (pat : List Char) : List Char → Nat
  | [] => if pat.isEmpty then 1 else 0
  | c :: s => (if hasPre pat (c :: s) then 1 else 0) + countOcc pat s

/-- Fuelled worker for `replaceAll` (structural recursion so that concrete
evaluation reduces in the kernel); the fuel is the length of the string. -/
def repFuel (p r : List Char) : Nat → List Char → List Char
  | 0, s => s
  | _ + 1, [] => []
  | n + 1, c :: s =>
    if hasPre p (c :: s) then r ++ repFuel p r n (List.drop (p.length - 1) s)
    else c :: repFuel p r n s

/-- Python `str.replace`: replace every (leftmost, non-overlapping)
occurrence of `p` by `r`. -/
def replaceAll (p r s : List Char) : List Char :=
  if p.isEmpty then s else repFuel p r s.length s

/-- Fuelled worker for `pySplit`. -/
def splitFuel (sep : List Char) : Nat → List Char → List (List Char)
  | 0, s => [s]
  | _ + 1, [] => [[]]
  | n + 1, c :: s =>
    if hasPre sep (c :: s) then [] :: splitFuel sep n (List.drop (sep.length - 1) s)
    else
      match splitFuel sep n s with
      | [] => [[c]]
      | t :: ts => (c :: t) :: ts

/-- Python `str.split(sep)` for non-empty `sep`. -/
def pySplit (sep s : List Char) : List (List Char) :=
  if sep.isEmpty then [s] else splitFuel sep s.length s

/-- Python `str.find`: index of the first occurrence of `pat`, if any. -/
def pyFind (pat : List Char) : List Char → Option Nat
  | [] => if pat.isEmpty then some 0 else none
  | c :: s =>
    if hasPre pat (c :: s) then some 0
    else Option.map (fun k => k + 1) (pyFind pat s)

/-- Python `str.find(pat, i)`: first occurrence at index `≥ i`. -/
def pyFindFrom (pat s : List Char) (i : Nat) : Option Nat :=
  Option.map (fun k => i + k) (pyFind pat (List.drop i s))

/-- Rewrite state: current snippet text and the `fixes_applied` log. -/
abbrev RW := List Char × List String

/-- One `for old, new in dict.items(): if old in code: replace + log` loop,
as a fold over the (insertion-ordered) table of
(pattern, replacement, fix description) entries. -/
def applyFixes (tbl : List (List Char × List Char × String)) (st : RW) : RW :=
  tbl.foldl
    (fun acc e =>
      if occursB e.1 acc.1 then (replaceAll e.1 e.2.1 acc.1, acc.2 ++ [e.2.2])
      else acc)
    st

/-! ## The rewrite rule sets, as they parse in the corrupted source -/

/-- The third pattern actually replaced by the "smart quotes" statement:
the mojibake residue `", \"'\").replace("`. -/
def quoteWeird : String := ", \"'\").replace("

/-- The `Fixed smart quotes` rule shared by the python, html and matplotlib
fixers.  In the file as it parses, the guard tests for `"` (twice) and for
the string `" in code or "`, and the body replaces `"` by itself twice and
`quoteWeird` by `'`. -/
def quotesStep : RW → RW := fun st =>
  if occursB "\"".data st.1 || occursB "\"".data st.1 ||
      occursB " in code or ".data st.1 then
    (replaceAll quoteWeird.data "'".data
        (replaceAll "\"".data "\"".data (replaceAll "\"".data "\"".data st.1)),
     st.2 ++ ["Fixed smart quotes \u2192 regular quotes"])
  else st

/-- Fourth key of `unicode_fixes` in the file as it parses: the mojibake
residue spanning the original dict entry, a comment and the line break. -/
def uniKey4 : String := ": \"'\",  # left single quote\n            "

/-- `unicode_fixes` of `auto_fix_python_code`. -/
def unicode_fixes : List (List Char × List Char × String) :=
  [("\u2013".data, "-".data, "Fixed unicode character: \u2013 \u2192 -"),
   ("\u2014".data, "-".data, "Fixed unicode character: \u2014 \u2192 -"),
   ("\u2026".data, "...".data, "Fixed unicode character: \u2026 \u2192 ..."),
   (uniKey4.data, "'".data, "Fixed unicode character: " ++ uniKey4 ++ " \u2192 '")]

/-- The ReportLab import block prepended by `auto_fix_python_code`. -/
def pyImports : String :=
  "from reportlab.lib.pagesizes import A4, letter\nfrom reportlab.lib import colors\nfrom reportlab.lib.units import inch, mm, cm, pica\nfrom reportlab.platypus import (\n    SimpleDocTemplate, BaseDocTemplate, PageTemplate, Frame, Paragraph, Spacer, \n    Table, TableStyle, PageBreak, KeepTogether, Flowable, Image, NextPageTemplate\n)\nfrom reportlab.lib.styles import getSampleStyleSheet, ParagraphStyle\nfrom reportlab.pdfbase import pdfmetrics\nfrom reportlab.pdfbase.ttfonts import TTFont\nfrom reportlab.graphics.shapes import Drawing, Rect, Circle, Line\nfrom reportlab.graphics.charts.linecharts import HorizontalLineChart\nfrom reportlab.graphics.charts.piecharts import Pie\nimport os\nimport sys\n\n"

/-- Dependency-completion rule of `auto_fix_python_code`. -/
def pyImportsStep : RW → RW := fun st =>
  if !occursB "from reportlab".data st.1 && !occursB "import reportlab".data st.1 then
    (pyImports.data ++ st.1, st.2 ++ ["Added comprehensive ReportLab imports"])
  else st

/-- `path_fixes` of `auto_fix_python_code`. -/
def path_fixes : List (List Char × List Char × String) :=
  [("/mnt/data/".data, "./".data, "Fixed file path: /mnt/data/ \u2192 ./"),
   ("~/".data, "./".data, "Fixed file path: ~/ \u2192 ./"),
   ("C:\\".data, "./".data, "Fixed file path: C:\\ \u2192 ./"),
   ("D:\\".data, "./".data, "Fixed file path: D:\\ \u2192 ./")]

/-- `var_fixes` of `auto_fix_python_code`: the pattern and replacement carry
the ` =` assignment suffix, the log message does not. -/
def var_fixes : List (List Char × List Char × String) :=
  [("fileName =".data, "file_name =".data, "Fixed variable name: fileName \u2192 file_name"),
   ("filename =".data, "file_path =".data, "Fixed variable name: filename \u2192 file_path"),
   ("pdfFile =".data, "pdf_file =".data, "Fixed variable name: pdfFile \u2192 pdf_file"),
   ("outputFile =".data, "output_file =".data, "Fixed variable name: outputFile \u2192 output_file")]

/-- The `if __name__ == "__main__":` marker. -/
def mainGuard : String := "if __name__ == \"__main__\":"

/-- Entry-point-completion rule of `auto_fix_python_code` (the three-branch
`if/elif/elif` chain around `build_pdf`, named builders and the
`story`-list pattern). -/
def pyEntryStep : RW → RW := fun st =>
  let code := st.1
  if occursB "def build_pdf(".data code && occursB mainGuard.data code then
    if !occursB "build_pdf(".data ((pySplit mainGuard.data code).getD 1 []) then
      (code ++ "\n\n# Auto-added function call\nbuild_pdf()".data,
       st.2 ++ ["Added missing function call"])
    else st
  else if occursB "def ".data code &&
      (occursB "build".data code || occursB "generate".data code ||
        occursB "create".data code) then
    let fns :=
      ((pySplit "\n".data code).filter
          (fun line =>
            hasPre "def ".data (pyStrip line) &&
              (occursB "build".data line || occursB "generate".data line ||
                occursB "create".data line))).map
        (fun line => (pySplit "(".data ((pySplit "def ".data line).getD 1 [])).getD 0 [])
    match fns with
    | [] => st
    | f0 :: _ =>
      (code ++ ("\n\n# Auto-added function call\n".data ++ f0 ++ "()".data),
       st.2 ++ ["Added missing " ++ String.mk f0 ++ "() call"])
  else if (occursB "Paragraph(".data code || occursB "Spacer(".data code) &&
      !occursB "story = []".data code then
    let st1 :=
      if occursB "pdf = SimpleDocTemplate(".data code then
        match pyFind "pdf = SimpleDocTemplate(".data code with
        | none => st
        | some i =>
          match pyFindFrom "\n".data code i with
          | none => st
          | some n =>
            (List.take n code ++ "\nstory = []".data ++ List.drop n code,
             st.2 ++ ["Added missing story list"])
      else st
    if occursB "story.append(".data st1.1 && !occursB "pdf.build(".data st1.1 &&
        !occursB "doc.build(".data st1.1 then
      (st1.1 ++ "\n\npdf.build(story)".data, st1.2 ++ ["Added missing pdf.build(story)"])
    else st1
  else st

/-- `alignment_fixes` of `auto_fix_python_code`. -/
def alignment_fixes : List (List Char × List Char × String) :=
  [("alignment=center".data, "alignment=1".data, "Fixed alignment: alignment=center \u2192 alignment=1"),
   ("alignment=\"center\"".data, "alignment=1".data, "Fixed alignment: alignment=\"center\" \u2192 alignment=1"),
   ("alignment=left".data, "alignment=0".data, "Fixed alignment: alignment=left \u2192 alignment=0"),
   ("alignment=\"left\"".data, "alignment=0".data, "Fixed alignment: alignment=\"left\" \u2192 alignment=0"),
   ("alignment=right".data, "alignment=2".data, "Fixed alignment: alignment=right \u2192 alignment=2"),
   ("alignment=\"right\"".data, "alignment=2".data, "Fixed alignment: alignment=\"right\" \u2192 alignment=2"),
   ("alignment=justify".data, "alignment=4".data, "Fixed alignment: alignment=justify \u2192 alignment=4"),
   ("alignment=\"justify\"".data, "alignment=4".data, "Fixed alignment: alignment=\"justify\" \u2192 alignment=4")]

/-- `syntax_fixes` of `auto_fix_python_code`. -/
def syntax_fixes : List (List Char × List Char × String) :=
  [("colors.hexcolor(".data, "colors.HexColor(".data, "Fixed syntax: colors.hexcolor( \u2192 colors.HexColor("),
   ("Colors.HexColor(".data, "colors.HexColor(".data, "Fixed syntax: Colors.HexColor( \u2192 colors.HexColor("),
   ("getSampleStylesheet()".data, "getSampleStyleSheet()".data, "Fixed syntax: getSampleStylesheet() \u2192 getSampleStyleSheet()"),
   ("getStyleSheet()".data, "getSampleStyleSheet()".data, "Fixed syntax: getStyleSheet() \u2192 getSampleStyleSheet()")]

/-- The `try/except` wrapper substituted for `build_pdf()` by the
error-handling rule. -/
def tryBlock : String :=
  "try:\n    build_pdf()\n    print(\"\u2705 PDF generated successfully!\")\nexcept Exception as e:\n    print(f\"\u274c Error: \x7be\x7d\")"

/-- Defensive-wrapping rule of `auto_fix_python_code`. -/
def pyErrStep : RW → RW := fun st =>
  if occursB "def ".data st.1 && !occursB "try:".data st.1 &&
      !occursB "except".data st.1 then
    if occursB "build_pdf()".data st.1 then
      (replaceAll "build_pdf()".data tryBlock.data st.1, st.2 ++ ["Added error handling"])
    else st
  else st

/-- The rule sequence of `auto_fix_python_code`, in source order. -/
def pythonSteps : List (RW → RW) :=
  [quotesStep, applyFixes unicode_fixes, pyImportsStep, applyFixes path_fixes,
   applyFixes var_fixes, pyEntryStep, applyFixes alignment_fixes,
   applyFixes syntax_fixes, pyErrStep]

/-- Run a rule sequence on a rewrite state. -/
def runSteps (l : List (RW → RW)) (st : RW) : RW :=
  l.foldl (fun s f => f s) st

/-- `auto_fix_python_code` (fault-free executions: the guarded body never
raises, so the `except` arm is not taken). -/
def auto_fix_python_code (code : List Char) : RW :=
  runSteps pythonSteps (code, [])

/-! ## HTML rule set -/

/-- DOCTYPE rule of `auto_fix_html_code`. -/
def htmlDoctypeStep : RW → RW := fun st =>
  if !occursB "<!DOCTYPE".data st.1 && occursB "<html".data st.1 then
    ("<!DOCTYPE html>\n".data ++ st.1, st.2 ++ ["Added missing DOCTYPE"])
  else st

/-- Charset rule of `auto_fix_html_code`. -/
def htmlCharsetStep : RW → RW := fun st =>
  if !occursB "<meta charset=".data st.1 && occursB "<head>".data st.1 then
    (replaceAll "<head>".data "<head>\n    <meta charset=\"UTF-8\">".data st.1,
     st.2 ++ ["Added UTF-8 charset"])
  else st

/-- Viewport rule of `auto_fix_html_code`. -/
def htmlViewStep : RW → RW := fun st =>
  if !occursB "<meta name=\"viewport\"".data st.1 && occursB "<head>".data st.1 then
    (replaceAll "<head>".data
        "<head>\n    <meta name=\"viewport\" content=\"width=device-width, initial-scale=1.0\">".data
        st.1,
     st.2 ++ ["Added viewport meta tag"])
  else st

/-- Text placed before the snippet by the full-document wrapping rule. -/
def htmlWrapPre : String :=
  "<!DOCTYPE html>\n<html lang=\"en\">\n<head>\n    <meta charset=\"UTF-8\">\n    <meta name=\"viewport\" content=\"width=device-width, initial-scale=1.0\">\n    <title>Generated PDF Document</title>\n    <style>\n        body \x7b \n            font-family: 'Segoe UI', Tahoma, Geneva, Verdana, sans-serif; \n            margin: 20px; \n            line-height: 1.6;\n            color: #333;\n        \x7d\n        h1 \x7b color: #213A5C; \x7d\n        h2 \x7b color: #5A7CA4; \x7d\n        .container \x7b max-width: 800px; margin: 0 auto; \x7d\n    </style>\n</head>\n<body>\n    <div class=\"container\">\n"

/-- Text placed after the snippet by the full-document wrapping rule. -/
def htmlWrapPost : String := "\n    </div>\n</body>\n</html>"

/-- Full-document wrapping rule of `auto_fix_html_code`. -/
def htmlWrapStep : RW → RW := fun st =>
  if !occursB "<html".data st.1 then
    (htmlWrapPre.data ++ st.1 ++ htmlWrapPost.data,
     st.2 ++ ["Added complete HTML5 document structure"])
  else st

/-- `html_fixes` of `auto_fix_html_code`; the loop guard carries the
(vacuous) comparison of the key against `"&amp;"`. -/
def html_fixes : List (String × String) :=
  [("<br>", "<br/>"), ("<hr>", "<hr/>"), ("<img ", "<img "), ("&", "&amp;")]

/-- The `html_fixes` loop of `auto_fix_html_code`. -/
def htmlFixesStep : RW → RW := fun st =>
  html_fixes.foldl
    (fun acc e =>
      if occursB e.1.data acc.1 && !(e.1 == "&amp;") then
        (replaceAll e.1.data e.2.data acc.1,
         acc.2 ++ ["Fixed HTML: " ++ e.1 ++ " → " ++ e.2])
      else acc)
    st

/-- Title rule of `auto_fix_html_code`. -/
def htmlTitleStep : RW → RW := fun st =>
  if !occursB "<title>".data st.1 && occursB "<head>".data st.1 then
    (replaceAll "</head>".data "    <title>PDF Document</title>\n</head>".data st.1,
     st.2 ++ ["Added missing title tag"])
  else st

/-- The rule sequence of `auto_fix_html_code`, in source order. -/
def htmlSteps : List (RW → RW) :=
  [quotesStep, htmlDoctypeStep, htmlCharsetStep, htmlViewStep, htmlWrapStep,
   htmlFixesStep, htmlTitleStep]

/-- `auto_fix_html_code`. -/
def auto_fix_html_code (code : List Char) : RW :=
  runSteps htmlSteps (code, [])

/-! ## Matplotlib rule set -/

/-- The matplotlib/numpy/pandas import block, with its non-interactive
backend directive. -/
def mplImports : String :=
  "import matplotlib\nmatplotlib.use('Agg')  # Backend for server environment\nimport matplotlib.pyplot as plt\nimport numpy as np\nimport pandas as pd\n"

/-- Import-completion rule of `auto_fix_matplotlib_code`. -/
def mplImportsStep : RW → RW := fun st =>
  if !occursB "matplotlib".data st.1 &&
      (occursB "plt.".data st.1 || occursB "pyplot".data st.1) then
    (mplImports.data ++ st.1, st.2 ++ ["Added comprehensive matplotlib imports"])
  else st

/-- Backend rule of `auto_fix_matplotlib_code`. -/
def mplBackendStep : RW → RW := fun st =>
  if !occursB "matplotlib.use(".data st.1 && occursB "import matplotlib".data st.1 then
    (replaceAll "import matplotlib".data "import matplotlib\nmatplotlib.use('Agg')".data st.1,
     st.2 ++ ["Added Agg backend for server environment"])
  else st

/-- Numpy-import rule of `auto_fix_matplotlib_code`. -/
def mplNumpyStep : RW → RW := fun st =>
  if (occursB "np.".data st.1 || occursB "numpy".data st.1) &&
      !occursB "import numpy".data st.1 then
    ("import numpy as np\n".data ++ st.1, st.2 ++ ["Added numpy import"])
  else st

/-- Pandas-import rule of `auto_fix_matplotlib_code`. -/
def mplPandasStep : RW → RW := fun st =>
  if (occursB "pd.".data st.1 || occursB "DataFrame".data st.1) &&
      !occursB "import pandas".data st.1 then
    ("import pandas as pd\n".data ++ st.1, st.2 ++ ["Added pandas import"])
  else st

/-- `mpl_fixes` of `auto_fix_matplotlib_code`. -/
def mpl_fixes : List (List Char × List Char × String) :=
  [("plt.show()".data, "# plt.show() removed for PDF generation".data,
    "Fixed matplotlib: plt.show() → # plt.show() removed for PDF generation"),
   ("pyplot.show()".data, "# pyplot.show() removed for PDF generation".data,
    "Fixed matplotlib: pyplot.show() → # pyplot.show() removed for PDF generation"),
   ("plt.ion()".data, "# plt.ion() removed for server environment".data,
    "Fixed matplotlib: plt.ion() → # plt.ion() removed for server environment"),
   ("plt.ioff()".data, "# plt.ioff() removed for server environment".data,
    "Fixed matplotlib: plt.ioff() → # plt.ioff() removed for server environment")]

/-- Save commands appended by `auto_fix_matplotlib_code`. -/
def mplSaveCmds : String :=
  "\n\n# Auto-added save commands\nplt.tight_layout()\nplt.savefig('chart.pdf', bbox_inches='tight', dpi=300)\nplt.close()"

/-- Savefig-completion rule of `auto_fix_matplotlib_code`. -/
def mplSaveStep : RW → RW := fun st =>
  if occursB "plt.".data st.1 && !occursB "savefig(".data st.1 &&
      !occursB "save(".data st.1 then
    (st.1 ++ mplSaveCmds.data, st.2 ++ ["Added plt.savefig() with tight layout and close"])
  else st

/-- Output-extension rule of `auto_fix_matplotlib_code`. -/
def mplExtStep : RW → RW := fun st =>
  if occursB "savefig(".data st.1 then
    if occursB ".png".data st.1 then
      (replaceAll ".png".data ".pdf".data st.1,
       st.2 ++ ["Changed output format from PNG to PDF"])
    else if occursB ".jpg".data st.1 || occursB ".jpeg".data st.1 then
      (replaceAll ".jpeg".data ".pdf".data (replaceAll ".jpg".data ".pdf".data st.1),
       st.2 ++ ["Changed output format from JPEG to PDF"])
    else st
  else st

/-- The rule sequence of `auto_fix_matplotlib_code`, in source order. -/
def matplotlibSteps : List (RW → RW) :=
  [quotesStep, mplImportsStep, mplBackendStep, mplNumpyStep, mplPandasStep,
   applyFixes mpl_fixes, mplSaveStep, mplExtStep]

/-- `auto_fix_matplotlib_code`. -/
def auto_fix_matplotlib_code (code : List Char) : RW :=
  runSteps matplotlibSteps (code, [])

/-! ## JavaScript rule set -/

/-- jsPDF-import rule of `auto_fix_javascript_code`. -/
def jsImportStep : RW → RW := fun st =>
  if occursB "jsPDF".data st.1 && !occursB "require(".data st.1 &&
      !occursB "import".data st.1 then
    ("const \x7b jsPDF \x7d = require('jspdf');\n".data ++ st.1,
     st.2 ++ ["Added jsPDF import"])
  else st

/-- doc.save rule of `auto_fix_javascript_code`. -/
def jsSaveStep : RW → RW := fun st =>
  if !occursB "doc.save(".data st.1 && occursB "new jsPDF()".data st.1 then
    (st.1 ++ "\ndoc.save('document.pdf');".data, st.2 ++ ["Added missing doc.save()"])
  else st

/-- The rule sequence of `auto_fix_javascript_code`, in source order. -/
def javascriptSteps : List (RW → RW) :=
  [jsImportStep, jsSaveStep]

/-- `auto_fix_javascript_code`. -/
def auto_fix_javascript_code (code : List Char) : RW :=
  runSteps javascriptSteps (code, [])

/-! ## Dialects, and the rewrite functions under an internal fault

The python, html and matplotlib fixers run their rule sequence inside
`try: ... except Exception as e:` which logs
`f"Auto-fix encountered error: {e}"` as one more fix record and falls
through to `return code, fixes_applied`; the javascript fixer has no such
handler.  An internal rewrite failure is modelled as an optional fault
`(k, msg)`: an exception with text `msg` raised after the first `k` rules
of the sequence have run. -/

/-- The supported snippet dialects. -/
inductive Dialect
  | python
  | html
  | matplotlib
  | javascript
deriving DecidableEq

/-- Rule sequence of each dialect's rewrite function. -/
def dialectSteps : Dialect → List (RW → RW)
  | .python => pythonSteps
  | .html => htmlSteps
  | .matplotlib => matplotlibSteps
  | .javascript => javascriptSteps

/-- Whether the dialect's rewrite body is wrapped in `try/except`. -/
def dialectGuarded : Dialect → Bool
  | .javascript => false
  | _ => true

/-- The dialect's rewrite function (fault-free). -/
def rewriteOf (d : Dialect) (code : List Char) : RW :=
  runSteps (dialectSteps d) (code, [])

/-- The dialect's rewrite function when an internal exception `(k, msg)`
strikes after `k` rules: a guarded fixer catches it, logs the
`Auto-fix encountered error` record and returns the state accumulated so
far; the unguarded javascript fixer lets it escape. -/
def rewriteFault (d : Dialect) (fault : Option (Nat × String)) (code : List Char) :
    Except String RW :=
  match fault with
  | none => .ok (rewriteOf d code)
  | some (k, m) =>
    if k < (dialectSteps d).length then
      if dialectGuarded d then
        let st := runSteps ((dialectSteps d).take k) (code, [])
        .ok (st.1, st.2 ++ ["Auto-fix encountered error: " ++ m])
      else .error m
    else .ok (rewriteOf d code)

/-! ## Execution strategies

Operating-system effects are oracle parameters: whether the in-process
`exec` of the snippet raises (and with what message), which `.pdf` file
the working-directory scan would select, whether weasyprint imports,
whether rendering raises, whether the wkhtmltopdf subprocess fails, and
what `os.path.exists` / `os.path.getsize` answer at finalization time.
What is embedded from the source is the executors' control flow: when the
temporary source file is deleted, what propagates, and what is returned. -/

/-- Oracle for one request's interaction with the operating system. -/
structure ExecEnv where
  /-- Message of the exception raised by `exec` of the snippet, if any. -/
  pyRaises : Option String
  /-- The most recently created `.pdf` of the working-directory scan
  (`None` when no `.pdf` file is present). -/
  pyPdfScan : Option String
  /-- Whether `import weasyprint` succeeds. -/
  weasyAvail : Bool
  /-- Message of the exception raised by `write_pdf`, if any. -/
  weasyRaises : Option String
  /-- Message of the error raised by the `wkhtmltopdf` subprocess
  (`check=True`), if any. -/
  wkRaises : Option String
  /-- `os.path.exists` at finalization time. -/
  fsExists : String → Bool
  /-- `os.path.getsize` at finalization time (its value when it returns). -/
  fsSize : String → Nat
  /-- Message of the exception raised by `os.path.getsize` at finalization,
  if any (`none`: it returns `fsSize` normally). -/
  sizeRaises : String → Option String
  /-- Message of the exception raised by `send_file`, if any (`none`: the
  attachment is sent normally). -/
  sendRaises : String → Option String

/-- `execute_python_code`: writes the snippet to a temp file, `exec`s it,
deletes the temp file (on the success path before the scan, on the failure
path in the `except` arm before re-raising), then scans the working
directory.  Second component: was the temp file deleted before
return/raise? -/
def execute_python_code (env : ExecEnv) (_code : List Char) :
    Except String (Option String) × Bool :=
  match env.pyRaises with
  | none => (.ok env.pyPdfScan, true)
  | some e => (.error e, true)

/-- `execute_html_with_wkhtmltopdf`: writes a temp file and runs the
subprocess; `os.unlink` is only reached when the subprocess succeeds. -/
def execute_html_with_wkhtmltopdf (env : ExecEnv) (_code : List Char) :
    Except String String × Bool :=
  match env.wkRaises with
  | none => (.ok "html_document.pdf", true)
  | some e => (.error e, false)

/-- `execute_html_code`: when weasyprint imports, writes a temp file and
renders to `html_document.pdf`; `os.unlink` is only reached when
`write_pdf` does not raise.  On `ImportError` (before any temp file is
written) it falls back to the wkhtmltopdf path. -/
def execute_html_code (env : ExecEnv) (code : List Char) :
    Except String String × Bool :=
  if env.weasyAvail then
    match env.weasyRaises with
    | none => (.ok "html_document.pdf", true)
    | some e => (.error e, false)
  else execute_html_with_wkhtmltopdf env code

/-- `execute_javascript_code`: unconditionally raises the fixed advisory. -/
def execute_javascript_code (_code : List Char) : Except String (Option String) :=
  .error "JavaScript execution requires Node.js setup. Please use Python or HTML instead."

/-! ## The `/generate` coordinator -/

/-- One row passed to `log_generation` (the outcome recorder). -/
structure LogRecord where
  language : String
  code_length : Nat
  success : Bool
  error_message : Option String
  fixes_applied : Option (List String)
  file_size : Option Nat
deriving DecidableEq

/-- HTTP response of `/generate`: a PDF attachment or a plain-text status. -/
inductive Resp
  | file (path : String)
  | text (status : Nat) (body : String)
deriving DecidableEq

/-- Result of one `/generate` request: response, recorder calls, and
whether the rewrite / execution stages were reached. -/
structure GenResult where
  resp : Resp
  logs : List LogRecord
  rewriteInvoked : Bool
  execInvoked : Bool
deriving DecidableEq

/-- `supported_languages` of `generate_pdf`. -/
def supported_languages : List String :=
  ["python", "html", "matplotlib", "javascript"]

/-- `dangerous_patterns` of `generate_pdf`, in declaration order. -/
def dangerous_patterns : List String :=
  ["import subprocess", "__import__", "eval(", "exec(", "open(",
   "file(", "input(", "raw_input(", "compile(", "globals()",
   "locals()", "vars()", "dir()", "hasattr(", "getattr(",
   "setattr(", "delattr(", "reload(", "memoryview("]

/-- `safe_contexts` of `generate_pdf`. -/
def safe_contexts : List String :=
  ["exec(compile(open(temp_file_path).read()"]

/-- The dialect dispatch inside the `try` block of `generate_pdf`:
auto-fix then execute.  Returns the fix list and the execution outcome
(an artifact path option, or the propagated exception text). -/
def runLang (env : ExecEnv) (lang : List Char) (ucode : List Char) :
    List String × Except String (Option String) :=
  if lang = "python".data then
    let r := auto_fix_python_code ucode
    (r.2, (execute_python_code env r.1).1)
  else if lang = "html".data then
    let r := auto_fix_html_code ucode
    (r.2, Except.map (fun p => some p) (execute_html_code env r.1).1)
  else if lang = "matplotlib".data then
    let r := auto_fix_matplotlib_code ucode
    (r.2, (execute_python_code env r.1).1)
  else if lang = "javascript".data then
    let r := auto_fix_javascript_code ucode
    (r.2, execute_javascript_code r.1)
  else ([], .error ("Unsupported language: " ++ String.mk lang))

/-- `generate_pdf` after form extraction: validation, safety filter,
rewrite + execution, artifact check, recorder calls, response.  The
finalization `try/except Exception as file_error` arm is embedded: when
the artifact check passes, `os.path.getsize` runs first (a failure there
logs a single `success = false` record), then the `success = true` record
is logged, then `send_file` runs (a failure there logs an additional
`success = false` record after the success record).  The outer
`except Exception` handler of `generate_pdf` is unreachable for the
modelled fault sources: the dispatch and finalization handlers catch
`Exception`, and `log_generation` swallows its own exceptions. -/
def generateCore (env : ExecEnv) (lang : List Char) (ucode : List Char) : GenResult :=
  if !(supported_languages.contains (String.mk lang)) then
    let msg := "Unsupported language: " ++ String.mk lang ++
      ". Supported: python, html, matplotlib, javascript"
    { resp := .text 400 msg,
      logs := [⟨String.mk lang, ucode.length, false, some msg, none, none⟩],
      rewriteInvoked := false, execInvoked := false }
  else if ucode.isEmpty then
    let msg := "Please enter some code to generate PDF"
    { resp := .text 400 msg,
      logs := [⟨String.mk lang, 0, false, some msg, none, none⟩],
      rewriteInvoked := false, execInvoked := false }
  else
    match dangerous_patterns.find? fun p =>
      occursB p.data (lowerStr ucode) &&
        !(safe_contexts.any fun sc => occursB sc.data ucode) with
    | some p =>
      let msg := "Code contains potentially dangerous pattern: " ++ p
      { resp := .text 400 msg,
        logs := [⟨String.mk lang, ucode.length, false, some msg, none, none⟩],
        rewriteInvoked := false, execInvoked := false }
    | none =>
      match runLang env lang ucode with
      | (fixes, .error e) =>
        let msg := "Code execution error: " ++ e
        { resp := .text 500 msg,
          logs := [⟨String.mk lang, ucode.length, false, some msg, some fixes, none⟩],
          rewriteInvoked := true, execInvoked := true }
      | (fixes, .ok pdfOpt) =>
        match pdfOpt with
        | some p =>
          if !p.isEmpty && env.fsExists p then
            match env.sizeRaises p with
            | some m =>
              let msg := "Error sending file: " ++ m
              { resp := .text 500 msg,
                logs := [⟨String.mk lang, ucode.length, false, some msg,
                  some fixes, none⟩],
                rewriteInvoked := true, execInvoked := true }
            | none =>
              match env.sendRaises p with
              | some m =>
                let msg := "Error sending file: " ++ m
                { resp := .text 500 msg,
                  logs := [⟨String.mk lang, ucode.length, true, none, some fixes,
                      some (env.fsSize p)⟩,
                    ⟨String.mk lang, ucode.length, false, some msg,
                      some fixes, none⟩],
                  rewriteInvoked := true, execInvoked := true }
              | none =>
                { resp := .file p,
                  logs := [⟨String.mk lang, ucode.length, true, none, some fixes,
                    some (env.fsSize p)⟩],
                  rewriteInvoked := true, execInvoked := true }
          else
            let msg := "No PDF file was generated. Check your code for errors."
            { resp := .text 400 msg,
              logs := [⟨String.mk lang, ucode.length, false, some msg, some fixes, none⟩],
              rewriteInvoked := true, execInvoked := true }
        | none =>
          let msg := "No PDF file was generated. Check your code for errors."
          { resp := .text 400 msg,
            logs := [⟨String.mk lang, ucode.length, false, some msg, some fixes, none⟩],
            rewriteInvoked := true, execInvoked := true }

/-- `generate_pdf`: form extraction (`language` defaults to `python`, is
lowercased then stripped; `code` defaults to empty, is stripped) followed
by `generateCore`. -/
def generate (env : ExecEnv) (formLanguage : Option String) (formCode : Option String) :
    GenResult :=
  generateCore env (pyStrip (lowerStr (formLanguage.getD "python").data))
    (pyStrip (formCode.getD "").data)

/-! ## Toolkit lemmas about `hasPre`, `occursB`, `countOcc` -/

/-- Strong induction on the length of a character list. -/
theorem lenInd {P : List Char → Prop}
    (ind : ∀ s, (∀ t, t.length < s.length → P t) → P s) (s : List Char) : P s := by
  have key : ∀ n (t : List Char), t.length ≤ n → P t := by
    intro n
    induction n with
    | zero => exact fun t ht => ind t (fun u hu => by omega)
    | succ n ih => exact fun t ht => ind t (fun u hu => ih u (by omega))
  exact key s.length s le_rfl

theorem hasPre_iff {p s : List Char} : hasPre p s = true ↔ p <+: s := by
  induction p generalizing s with
  | nil => simp [hasPre]
  | cons x xs ih =>
    cases s with
    | nil => simp [hasPre]
    | cons c cs =>
      simp only [hasPre, Bool.and_eq_true, decide_eq_true_eq, ih,
        List.cons_prefix_cons]

theorem hasPre_nil (s : List Char) : hasPre [] s = true := rfl

theorem hasPre_append_self (p t : List Char) : hasPre p (p ++ t) = true :=
  hasPre_iff.mpr ⟨t, rfl⟩

theorem hasPre_length_le {p s : List Char} (h : hasPre p s = true) :
    p.length ≤ s.length :=
  (hasPre_iff.mp h).length_le

theorem hasPre_mono_append {q d : List Char} (b : List Char)
    (h : hasPre q d = true) : hasPre q (d ++ b) = true :=
  hasPre_iff.mpr ((hasPre_iff.mp h).trans (List.prefix_append d b))

theorem hasPre_of_append_left {u v s : List Char}
    (h : hasPre (u ++ v) s = true) : hasPre u s = true :=
  hasPre_iff.mpr ((List.prefix_append u v).trans (hasPre_iff.mp h))

theorem occursB_nil_pat (s : List Char) : occursB [] s = true := by
  cases s <;> simp [occursB, hasPre]

theorem occursB_cons (pat c : _) (s : List Char) :
    occursB pat (c :: s) = (hasPre pat (c :: s) || occursB pat s) := rfl

theorem occursB_of_hasPre {p s : List Char} (h : hasPre p s = true) :
    occursB p s = true := by
  cases s with
  | nil =>
    cases p with
    | nil => rfl
    | cons x xs => simp [hasPre] at h
  | cons c cs => simp [occursB, h]

theorem occursB_append_right {q : List Char} (a : List Char) {b : List Char}
    (h : occursB q b = true) : occursB q (a ++ b) = true := by
  induction a with
  | nil => simpa using h
  | cons c a' ih => simp [occursB, ih]

theorem occursB_append_left {q a : List Char} (b : List Char)
    (h : occursB q a = true) : occursB q (a ++ b) = true := by
  induction a with
  | nil =>
    simp only [occursB, List.isEmpty_iff] at h
    subst h
    exact occursB_nil_pat _
  | cons c a' ih =>
    simp only [occursB, Bool.or_eq_true] at h ⊢
    rcases h with h | h
    · exact Or.inl (hasPre_mono_append b h)
    · exact Or.inr (ih h)

theorem occursB_of_occursB_append {u v s : List Char}
    (h : occursB (u ++ v) s = true) : occursB u s = true := by
  induction s with
  | nil =>
    simp only [occursB, List.isEmpty_iff, List.append_eq_nil] at h
    simp [occursB, h.1]
  | cons c cs ih =>
    simp only [occursB, Bool.or_eq_true] at h ⊢
    rcases h with h | h
    · exact Or.inl (hasPre_of_append_left h)
    · exact Or.inr (ih h)

theorem countOcc_nil {pat : List Char} (h : pat ≠ []) : countOcc pat [] = 0 := by
  simp [countOcc, h]

theorem countOcc_pos_iff {pat s : List Char} :
    (0 < countOcc pat s) ↔ occursB pat s = true := by
  induction s with
  | nil =>
    cases pat with
    | nil => simp [countOcc, occursB]
    | cons x xs => simp [countOcc, occursB]
  | cons c cs ih =>
    simp only [countOcc, occursB, Bool.or_eq_true, ← ih]
    by_cases h : hasPre pat (c :: cs) = true <;> simp [h]

theorem countOcc_eq_zero {pat s : List Char} (h : occursB pat s = false) :
    countOcc pat s = 0 := by
  by_contra hne
  have := (@countOcc_pos_iff pat s).mp (by omega)
  rw [this] at h
  cases h

/-- A prefix of an appended list is a prefix of the left part or extends it. -/
theorem prefix_append_cases {q a b : List Char} (h : q <+: a ++ b) :
    q <+: a ∨ ∃ w, q = a ++ w ∧ w <+: b := by
  induction a generalizing q with
  | nil => exact Or.inr ⟨q, by simpa using h⟩
  | cons c a' ih =>
    cases q with
    | nil => exact Or.inl List.nil_prefix
    | cons x xs =>
      rw [List.cons_append, List.cons_prefix_cons] at h
      obtain ⟨hxc, hxs⟩ := h
      subst hxc
      rcases ih hxs with h' | ⟨w, hw, hwb⟩
      · exact Or.inl (by rw [List.cons_prefix_cons]; exact ⟨rfl, h'⟩)
      · exact Or.inr ⟨w, by rw [hw, List.cons_append], hwb⟩

/-- Occurrence decomposition over an append: inside the left part, inside
the right part, or straddling the junction. -/
theorem occursB_append_split {q a b : List Char}
    (h : occursB q (a ++ b) = true) :
    occursB q a = true ∨ occursB q b = true ∨
      ∃ x y, q = x ++ y ∧ x ≠ [] ∧ y ≠ [] ∧ x <:+ a ∧ y <+: b := by
  induction a with
  | nil => exact Or.inr (Or.inl (by simpa using h))
  | cons c a' ih =>
    rw [List.cons_append, occursB_cons, Bool.or_eq_true] at h
    rcases h with h | h
    · rcases q with _ | ⟨x, xs⟩
      · exact Or.inl (occursB_nil_pat _)
      · rw [hasPre_iff, List.cons_prefix_cons] at h
        obtain ⟨hxc, hxs⟩ := h
        subst hxc
        rcases prefix_append_cases hxs with h' | ⟨w, hw, hwb⟩
        · exact Or.inl (occursB_of_hasPre (hasPre_iff.mpr
            (by rw [List.cons_prefix_cons]; exact ⟨rfl, h'⟩)))
        · by_cases hwnil : w = []
          · subst hwnil
            rw [List.append_nil] at hw
            exact Or.inl (occursB_of_hasPre (hasPre_iff.mpr (by rw [hw])))
          · exact Or.inr (Or.inr ⟨x :: a', w, by simp [hw], by simp,
              hwnil, List.suffix_refl _, hwb⟩)
    · rcases ih h with h' | h' | ⟨x, y, hq, hx, hy, hxa, hyb⟩
      · exact Or.inl (by rw [occursB_cons, h']; simp)
      · exact Or.inr (Or.inl h')
      · exact Or.inr (Or.inr ⟨x, y, hq, hx, hy, hxa.trans (List.suffix_cons c a'), hyb⟩)

/-! ## Boundary lemmas: occurrences across an append whose junction
character cannot belong to the pattern -/

theorem hasPre_append_of_le {q a : List Char} (b : List Char)
    (hle : q.length ≤ a.length) : hasPre q (a ++ b) = hasPre q a := by
  rw [Bool.eq_iff_iff, hasPre_iff, hasPre_iff, List.prefix_iff_eq_take,
    List.prefix_iff_eq_take, List.take_append_eq_append_take,
    Nat.sub_eq_zero_of_le hle, List.take_zero, List.append_nil]

theorem hasPre_append_headNot {q b : List Char}
    (hb : ∀ x, b.head? = some x → x ∉ q) (d : List Char) :
    hasPre q (d ++ b) = hasPre q d := by
  by_cases hle : q.length ≤ d.length
  · exact hasPre_append_of_le b hle
  · have h1 : hasPre q d = false := by
      cases hqa : hasPre q d
      · rfl
      · exact absurd (hasPre_length_le hqa) (by omega)
    rw [h1]
    cases hqb : hasPre q (d ++ b)
    · rfl
    · exfalso
      have hq := List.prefix_iff_eq_take.mp (hasPre_iff.mp hqb)
      rw [List.take_append_eq_append_take, List.take_of_length_le (by omega)] at hq
      cases b with
      | nil =>
        rw [List.take_nil, List.append_nil] at hq
        have := congrArg List.length hq
        simp at this
        omega
      | cons x b' =>
        have hxq : x ∈ q := by
          obtain ⟨m, hm⟩ : ∃ m, q.length - d.length = m + 1 :=
            ⟨q.length - d.length - 1, by omega⟩
          rw [hq, hm]
          refine List.mem_append_right d ?_
          rw [List.take_succ_cons]
          exact List.mem_cons_self _ _
        exact hb x rfl hxq

theorem mem_of_getLast?A : ∀ {a : List Char} {z : Char},
    a.getLast? = some z → z ∈ a := by
  intro a
  induction a with
  | nil => intro z h; cases h
  | cons c a' ih =>
    intro z h
    cases a' with
    | nil =>
      have : c = z := by simpa using h
      rw [this]
      exact List.mem_cons_self _ _
    | cons d d' =>
      rw [List.getLast?_cons_cons] at h
      exact List.mem_cons_of_mem _ (ih h)

theorem hasPre_append_lastNot {q a : List Char} {z : Char}
    (hz : a.getLast? = some z) (hniz : z ∉ q) (b : List Char) :
    hasPre q (a ++ b) = hasPre q a := by
  by_cases hle : q.length ≤ a.length
  · exact hasPre_append_of_le b hle
  · have h1 : hasPre q a = false := by
      cases hqa : hasPre q a
      · rfl
      · exact absurd (hasPre_length_le hqa) (by omega)
    rw [h1]
    cases hqb : hasPre q (a ++ b)
    · rfl
    · exfalso
      have hq := hasPre_iff.mp hqb
      have haq : a <+: q :=
        List.prefix_of_prefix_length_le (List.prefix_append a b) hq (by omega)
      have hzmem : z ∈ a := mem_of_getLast?A hz
      exact hniz (haq.subset hzmem)

theorem countOcc_append_headNot {q b : List Char} (hq : q ≠ [])
    (hb : ∀ x, b.head? = some x → x ∉ q) (a : List Char) :
    countOcc q (a ++ b) = countOcc q a + countOcc q b := by
  induction a with
  | nil => rw [List.nil_append, countOcc_nil hq, Nat.zero_add]
  | cons c a' ih =>
    show countOcc q (c :: (a' ++ b)) = countOcc q (c :: a') + countOcc q b
    simp only [countOcc]
    have heq : hasPre q (c :: (a' ++ b)) = hasPre q (c :: a') :=
      hasPre_append_headNot hb (c :: a')
    rw [heq, ih]
    omega

theorem countOcc_append_lastNot {q a : List Char} {z : Char} (hq : q ≠ [])
    (hz : a.getLast? = some z) (hniz : z ∉ q) (b : List Char) :
    countOcc q (a ++ b) = countOcc q a + countOcc q b := by
  induction a with
  | nil => simp at hz
  | cons c a' ih =>
    cases ha' : a' with
    | nil =>
      subst ha'
      have hzc : z = c := by simpa using hz.symm
      subst hzc
      have h1 : hasPre q (z :: b) = hasPre q [z] :=
        @hasPre_append_lastNot q [z] z rfl hniz b
      have hqe : q.isEmpty = false := by
        cases q with
        | nil => exact absurd rfl hq
        | cons a as => rfl
      calc countOcc q ([z] ++ b)
          = (if hasPre q (z :: b) then 1 else 0) + countOcc q b := rfl
        _ = (if hasPre q [z] then 1 else 0) + countOcc q b := by rw [h1]
        _ = countOcc q [z] + countOcc q b := by
            show _ = ((if hasPre q [z] then 1 else 0) +
              (if q.isEmpty = true then 1 else 0)) + countOcc q b
            rw [hqe]
            simp
    | cons d d' =>
      subst ha'
      have hz' : (d :: d').getLast? = some z := by
        rw [← hz, List.getLast?_cons_cons]
      have key := ih hz'
      have h1 : hasPre q (c :: ((d :: d') ++ b)) = hasPre q (c :: d :: d') :=
        @hasPre_append_lastNot q (c :: d :: d') z
          (by rw [List.getLast?_cons_cons]; exact hz') hniz b
      calc countOcc q ((c :: d :: d') ++ b)
          = (if hasPre q (c :: ((d :: d') ++ b)) then 1 else 0) +
              countOcc q ((d :: d') ++ b) := rfl
        _ = (if hasPre q (c :: d :: d') then 1 else 0) +
              (countOcc q (d :: d') + countOcc q b) := by rw [h1, key]
        _ = countOcc q (c :: d :: d') + countOcc q b := by
            show _ = ((if hasPre q (c :: d :: d') then 1 else 0) +
              countOcc q (d :: d')) + countOcc q b
            omega

theorem occursB_eq_or_of_count {q a b : List Char}
    (h : countOcc q (a ++ b) = countOcc q a + countOcc q b) :
    occursB q (a ++ b) = (occursB q a || occursB q b) := by
  rw [Bool.eq_iff_iff, Bool.or_eq_true, ← countOcc_pos_iff, ← countOcc_pos_iff,
    ← countOcc_pos_iff, h]
  omega

theorem occursB_append_headNot {q b : List Char} (hq : q ≠ [])
    (hb : ∀ x, b.head? = some x → x ∉ q) (a : List Char) :
    occursB q (a ++ b) = (occursB q a || occursB q b) :=
  occursB_eq_or_of_count (countOcc_append_headNot hq hb a)

theorem occursB_append_lastNot {q a : List Char} {z : Char} (hq : q ≠ [])
    (hz : a.getLast? = some z) (hniz : z ∉ q) (b : List Char) :
    occursB q (a ++ b) = (occursB q a || occursB q b) :=
  occursB_eq_or_of_count (countOcc_append_lastNot hq hz hniz b)

theorem occursB_of_drop {q s : List Char} (k : Nat)
    (h : occursB q (List.drop k s) = true) : occursB q s = true := by
  rw [← List.take_append_drop k s]
  exact occursB_append_right _ h

/-! ## `replaceAll`: unfolding equations and structural lemmas -/

theorem repFuel_nil (p r : List Char) (n : Nat) : repFuel p r n [] = [] := by
  cases n <;> rfl

theorem repFuel_congr (p r : List Char) :
    ∀ (n m : Nat) (s : List Char), s.length ≤ n → s.length ≤ m →
      repFuel p r n s = repFuel p r m s := by
  intro n
  induction n with
  | zero =>
    intro m s hs _
    have : s = [] := List.length_eq_zero.mp (by omega)
    subst this
    rw [repFuel_nil, repFuel_nil]
  | succ n ih =>
    intro m s hsn hsm
    cases s with
    | nil => rw [repFuel_nil, repFuel_nil]
    | cons c s' =>
      cases m with
      | zero => simp at hsm
      | succ m' =>
        simp only [repFuel]
        by_cases h : hasPre p (c :: s') = true
        · rw [if_pos h, if_pos h]
          have hd : (List.drop (p.length - 1) s').length ≤ n := by
            rw [List.length_drop]
            simp only [List.length_cons] at hsn
            omega
          have hd' : (List.drop (p.length - 1) s').length ≤ m' := by
            rw [List.length_drop]
            simp only [List.length_cons] at hsm
            omega
          congr 1
          exact ih m' (List.drop (p.length - 1) s') hd hd'
        · rw [if_neg h, if_neg h]
          have h1 : s'.length ≤ n := by simp only [List.length_cons] at hsn; omega
          have h2 : s'.length ≤ m' := by simp only [List.length_cons] at hsm; omega
          congr 1
          exact ih m' s' h1 h2

theorem replaceAll_nil (p r : List Char) : replaceAll p r [] = [] := by
  unfold replaceAll
  split
  · rfl
  · rfl

theorem replaceAll_empty_pat (r s : List Char) : replaceAll [] r s = s := rfl

theorem replaceAll_pos {p : List Char} (r : List Char) {c : Char} {s : List Char}
    (hp : p ≠ []) (h : hasPre p (c :: s) = true) :
    replaceAll p r (c :: s) =
      r ++ replaceAll p r (List.drop (p.length - 1) s) := by
  have hpe : p.isEmpty = false := by
    cases p with
    | nil => exact absurd rfl hp
    | cons a b => rfl
  simp only [replaceAll, hpe, Bool.false_eq_true, if_false, List.length_cons]
  show repFuel p r (s.length + 1) (c :: s) = _
  simp only [repFuel, if_pos h]
  congr 1
  exact repFuel_congr p r s.length _ _ (by rw [List.length_drop]; omega) le_rfl

theorem replaceAll_neg {p : List Char} (r : List Char) {c : Char} {s : List Char}
    (hp : p ≠ []) (h : hasPre p (c :: s) = false) :
    replaceAll p r (c :: s) = c :: replaceAll p r s := by
  have hpe : p.isEmpty = false := by
    cases p with
    | nil => exact absurd rfl hp
    | cons a b => rfl
  simp only [replaceAll, hpe, Bool.false_eq_true, if_false, List.length_cons]
  show repFuel p r (s.length + 1) (c :: s) = _
  simp only [repFuel, h, Bool.false_eq_true, if_false]

theorem hasPre_decomp {p s : List Char} (h : hasPre p s = true) :
    s = p ++ List.drop p.length s := by
  induction p generalizing s with
  | nil => simp
  | cons x xs ih =>
    cases s with
    | nil => simp [hasPre] at h
    | cons c cs =>
      simp only [hasPre, Bool.and_eq_true, decide_eq_true_eq] at h
      obtain ⟨hxc, hrest⟩ := h
      subst hxc
      simpa using ih hrest

theorem drop_pred_cons {p : List Char} (hp : p ≠ []) (c : Char) (s : List Char) :
    List.drop p.length (c :: s) = List.drop (p.length - 1) s := by
  cases p with
  | nil => exact absurd rfl hp
  | cons a b => simp

theorem replaceAll_self (p s : List Char) : replaceAll p p s = s := by
  induction s using lenInd with
  | ind s ih =>
    cases s with
    | nil => exact replaceAll_nil p p
    | cons c s' =>
      by_cases hp : p = []
      · subst hp; rfl
      · by_cases h : hasPre p (c :: s') = true
        · rw [replaceAll_pos p hp h,
            ih (List.drop (p.length - 1) s') (by rw [List.length_drop]; simp; omega)]
          rw [← drop_pred_cons hp c s']
          exact (hasPre_decomp h).symm
        · rw [replaceAll_neg p hp (by simpa using h),
            ih s' (by simp)]

theorem replaceAll_not_occurs {p r s : List Char}
    (h : occursB p s = false) : replaceAll p r s = s := by
  induction s using lenInd with
  | ind s ih =>
    cases s with
    | nil => exact replaceAll_nil p r
    | cons c s' =>
      by_cases hp : p = []
      · subst hp; rfl
      · rw [occursB_cons, Bool.or_eq_false_iff] at h
        rw [replaceAll_neg r hp h.1, ih s' (by simp) h.2]

theorem mem_replaceAll {p r s : List Char} {x : Char}
    (h : x ∈ replaceAll p r s) : x ∈ r ∨ x ∈ s := by
  induction s using lenInd with
  | ind s ih =>
    cases s with
    | nil => rw [replaceAll_nil] at h; cases h
    | cons c s' =>
      by_cases hp : p = []
      · subst hp; exact Or.inr h
      · by_cases hpre : hasPre p (c :: s') = true
        · rw [replaceAll_pos r hp hpre, List.mem_append] at h
          rcases h with h | h
          · exact Or.inl h
          · rcases ih (List.drop (p.length - 1) s')
              (by rw [List.length_drop]; simp; omega) h with h' | h'
            · exact Or.inl h'
            · exact Or.inr (List.mem_cons_of_mem c (List.mem_of_mem_drop h'))
        · rw [replaceAll_neg r hp (by simpa using hpre), List.mem_cons] at h
          rcases h with h | h
          · exact Or.inr (h ▸ List.mem_cons_self c s')
          · rcases ih s' (by simp) h with h' | h'
            · exact Or.inl h'
            · exact Or.inr (List.mem_cons_of_mem c h')

theorem mem_replaceAll_keep {p r s : List Char} {x : Char}
    (hx : x ∈ s) (hnp : x ∉ p) : x ∈ replaceAll p r s := by
  induction s using lenInd with
  | ind s ih =>
    cases s with
    | nil => cases hx
    | cons c s' =>
      by_cases hp : p = []
      · subst hp; exact hx
      · by_cases hpre : hasPre p (c :: s') = true
        · rw [replaceAll_pos r hp hpre, List.mem_append]
          have hdec := hasPre_decomp hpre
          rw [hdec, List.mem_append] at hx
          rcases hx with hx | hx
          · exact absurd hx hnp
          · rw [drop_pred_cons hp] at hx
            exact Or.inr (ih (List.drop (p.length - 1) s')
              (by rw [List.length_drop]; simp; omega) hx)
        · rw [replaceAll_neg r hp (by simpa using hpre), List.mem_cons]
          rcases List.mem_cons.mp hx with hx | hx
          · exact Or.inl hx
          · exact Or.inr (ih s' (by simp) hx)

theorem mem_replaceAll_of_occurs {p r s : List Char} {x : Char} (hp : p ≠ [])
    (hocc : occursB p s = true) (hx : x ∈ r) : x ∈ replaceAll p r s := by
  induction s using lenInd with
  | ind s ih =>
    cases s with
    | nil =>
      simp only [occursB, List.isEmpty_iff] at hocc
      exact absurd hocc hp
    | cons c s' =>
      by_cases hpre : hasPre p (c :: s') = true
      · rw [replaceAll_pos r hp hpre, List.mem_append]
        exact Or.inl hx
      · rw [occursB_cons, Bool.or_eq_true] at hocc
        rcases hocc with h' | h'
        · exact absurd h' hpre
        · rw [replaceAll_neg r hp (by simpa using hpre)]
          exact List.mem_cons_of_mem c (ih s' (by simp) h')

theorem length_replaceAll_ge {p r s : List Char} (hp : p ≠ [])
    (hlen : p.length ≤ r.length) : s.length ≤ (replaceAll p r s).length := by
  induction s using lenInd with
  | ind s ih =>
    cases s with
    | nil => rw [replaceAll_nil]
    | cons c s' =>
      by_cases hpre : hasPre p (c :: s') = true
      · rw [replaceAll_pos r hp hpre]
        have hp1 : 1 ≤ p.length := by
          cases p with
          | nil => exact absurd rfl hp
          | cons a b => simp
        have h1 := ih (List.drop (p.length - 1) s')
          (by rw [List.length_drop]; simp; omega)
        have h2 : p.length ≤ s'.length + 1 := by
          have := hasPre_length_le hpre
          simpa using this
        rw [List.length_append]
        rw [List.length_drop] at h1
        simp only [List.length_cons]
        omega
      · rw [replaceAll_neg r hp (by simpa using hpre)]
        have := ih s' (by simp)
        simp only [List.length_cons]
        omega

theorem length_replaceAll_gt {p r s : List Char} (hp : p ≠ [])
    (hlen : p.length < r.length) (hocc : occursB p s = true) :
    s.length < (replaceAll p r s).length := by
  induction s using lenInd with
  | ind s ih =>
    cases s with
    | nil =>
      simp only [occursB, List.isEmpty_iff] at hocc
      exact absurd hocc hp
    | cons c s' =>
      by_cases hpre : hasPre p (c :: s') = true
      · rw [replaceAll_pos r hp hpre]
        have hp1 : 1 ≤ p.length := by
          cases p with
          | nil => exact absurd rfl hp
          | cons a b => simp
        have h1 := @length_replaceAll_ge p r
          (List.drop (p.length - 1) s') hp (le_of_lt hlen)
        have h2 : p.length ≤ s'.length + 1 := by
          have := hasPre_length_le hpre
          simpa using this
        rw [List.length_append]
        rw [List.length_drop] at h1
        simp only [List.length_cons]
        omega
      · rw [occursB_cons, Bool.or_eq_true] at hocc
        rcases hocc with h' | h'
        · exact absurd h' hpre
        · rw [replaceAll_neg r hp (by simpa using hpre)]
          have := ih s' (by simp) h'
          simp only [List.length_cons]
          omega

theorem replaceAll_single_expand (ch : Char) (r : List Char) (s : List Char) :
    replaceAll [ch] r s = s.flatMap (fun x => if x = ch then r else [x]) := by
  induction s with
  | nil => rw [replaceAll_nil]; rfl
  | cons c s' ih =>
    by_cases h : c = ch
    · subst h
      have hpre : hasPre [c] (c :: s') = true := by simp [hasPre]
      rw [replaceAll_pos r (by simp) hpre]
      simp [ih, List.flatMap_cons]
    · have hpre : hasPre [ch] (c :: s') = false := by
        simp only [hasPre, Bool.and_eq_false_iff]
        left
        simp [eq_comm] at h ⊢
        exact h
      rw [replaceAll_neg r (by simp) hpre]
      simp [ih, List.flatMap_cons, h]

/-! ## Non-creation: a replacement whose inserted text cannot seed a new
occurrence of `q` never creates one -/

theorem hasPre_nil_right {q : List Char} : hasPre q [] = true ↔ q = [] := by
  cases q <;> simp [hasPre]

/-- A prefix of `replaceAll p r s` is a prefix of `s`, or some non-empty
suffix of it is a prefix of `r` or begins with all of `r`. -/
theorem hasPre_replaceAll_split {p r : List Char} :
    ∀ {s q : List Char}, hasPre q (replaceAll p r s) = true →
      hasPre q s = true ∨
        ∃ a u, q = a ++ u ∧ u ≠ [] ∧ (hasPre u r = true ∨ hasPre r u = true) := by
  intro s
  induction s using lenInd with
  | ind s ih =>
    intro q h
    by_cases hp : p = []
    · subst hp
      rw [replaceAll_empty_pat] at h
      exact Or.inl h
    · cases s with
      | nil =>
        rw [replaceAll_nil] at h
        rw [hasPre_nil_right.mp h]
        exact Or.inl rfl
      | cons c s' =>
        by_cases hpre : hasPre p (c :: s') = true
        · rw [replaceAll_pos r hp hpre] at h
          by_cases hq0 : q = []
          · subst hq0
            exact Or.inl rfl
          · rcases prefix_append_cases (hasPre_iff.mp h) with h' | ⟨w, hw, _⟩
            · exact Or.inr ⟨[], q, (List.nil_append q).symm, hq0,
                Or.inl (hasPre_iff.mpr h')⟩
            · exact Or.inr ⟨[], q, (List.nil_append q).symm, hq0,
                Or.inr (by rw [hw]; exact hasPre_append_self r w)⟩
        · rw [replaceAll_neg r hp (by simpa using hpre)] at h
          cases q with
          | nil => exact Or.inl rfl
          | cons qc q₂ =>
            simp only [hasPre, Bool.and_eq_true, decide_eq_true_eq] at h
            obtain ⟨hqc, hq₂⟩ := h
            subst hqc
            rcases ih s' (by simp) hq₂ with h' | ⟨a, u, hqa, hu, hor⟩
            · exact Or.inl (by simp [hasPre, h'])
            · exact Or.inr ⟨qc :: a, u, by rw [hqa, List.cons_append], hu, hor⟩

/-- No non-empty suffix of `r` is a prefix of `q`. -/
def noTailPre (q r : List Char) : Bool :=
  r.tails.all fun x => x.isEmpty || !hasPre x q

/-- No non-empty prefix of `r` is a suffix of `q`. -/
def noInitSuf (q r : List Char) : Bool :=
  r.inits.all fun y => y.isEmpty || !hasPre y.reverse q.reverse

/-- Decidable side conditions under which replacing anything by `r` can
never create a new occurrence of `q`. -/
def safeRepl (q r : List Char) : Bool :=
  !occursB q r && !occursB r q && noTailPre q r && noInitSuf q r

theorem occursB_replaceAll_false {q r : List Char} (hsafe : safeRepl q r = true)
    {p : List Char} :
    ∀ {s : List Char}, occursB q s = false → occursB q (replaceAll p r s) = false := by
  have hqr : occursB q r = false := by
    have := hsafe
    simp only [safeRepl, Bool.and_eq_true, Bool.not_eq_true'] at this
    exact this.1.1.1
  have hrq : occursB r q = false := by
    have := hsafe
    simp only [safeRepl, Bool.and_eq_true, Bool.not_eq_true'] at this
    exact this.1.1.2
  have hA : noTailPre q r = true := by
    have := hsafe
    simp only [safeRepl, Bool.and_eq_true] at this
    exact this.1.2
  have hB : noInitSuf q r = true := by
    have := hsafe
    simp only [safeRepl, Bool.and_eq_true] at this
    exact this.2
  intro s
  induction s using lenInd with
  | ind s ih =>
    intro hqs
    have hq0 : q ≠ [] := by
      intro hq
      subst hq
      rw [occursB_nil_pat] at hqs
      cases hqs
    by_cases hp : p = []
    · subst hp
      rw [replaceAll_empty_pat]
      exact hqs
    · cases s with
      | nil => rw [replaceAll_nil]; exact hqs
      | cons c s' =>
        rw [occursB_cons, Bool.or_eq_false_iff] at hqs
        by_cases hpre : hasPre p (c :: s') = true
        · rw [replaceAll_pos r hp hpre]
          have hdrop : occursB q (List.drop (p.length - 1) s') = false := by
            cases hD : occursB q (List.drop (p.length - 1) s')
            · rfl
            · exact absurd (occursB_of_drop (p.length - 1) hD)
                (by rw [hqs.2]; simp)
          have hR := ih (List.drop (p.length - 1) s')
            (by rw [List.length_drop]; simp; omega) hdrop
          cases hRes : occursB q (r ++ replaceAll p r (List.drop (p.length - 1) s'))
          · rfl
          · exfalso
            rcases occursB_append_split hRes with h' | h' | ⟨x, y, hq, hx, hy, hxr, hyR⟩
            · rw [h'] at hqr; cases hqr
            · rw [h'] at hR; cases hR
            · have hxt : x ∈ r.tails := (List.mem_tails _ _).mpr hxr
              have := List.all_eq_true.mp hA x hxt
              rw [Bool.or_eq_true, Bool.not_eq_true'] at this
              rcases this with h0 | h0
              · exact hx (List.isEmpty_iff.mp h0)
              · rw [hq, hasPre_append_self x y] at h0
                cases h0
        · rw [replaceAll_neg r hp (by simpa using hpre)]
          have hR' := ih s' (by simp) hqs.2
          rw [occursB_cons, hR', Bool.or_false]
          cases hPre : hasPre q (c :: replaceAll p r s')
          · rfl
          · exfalso
            cases q with
            | nil => exact hq0 rfl
            | cons qc q₂ =>
              simp only [hasPre, Bool.and_eq_true, decide_eq_true_eq] at hPre
              obtain ⟨hqc, hq₂⟩ := hPre
              subst hqc
              rcases hasPre_replaceAll_split hq₂ with h' | ⟨a, u, hqa, hu, hor⟩
              · have hcontra : hasPre (qc :: q₂) (qc :: s') = true := by
                  simp [hasPre, h']
                exact absurd hcontra (by rw [hqs.1]; simp)
              · rcases hor with h0 | h0
                · have hui : u ∈ r.inits := (List.mem_inits _ _).mpr (hasPre_iff.mp h0)
                  have := List.all_eq_true.mp hB u hui
                  rw [Bool.or_eq_true, Bool.not_eq_true'] at this
                  rcases this with h1 | h1
                  · exact hu (List.isEmpty_iff.mp h1)
                  · have hsuf : u <:+ qc :: q₂ :=
                      ⟨qc :: a, by rw [hqa, List.cons_append]⟩
                    have hpref : hasPre u.reverse (qc :: q₂).reverse = true :=
                      hasPre_iff.mpr (List.reverse_prefix.mpr hsuf)
                    rw [h1] at hpref
                    cases hpref
                · have hocc : occursB r (qc :: q₂) = true := by
                    have h2 : occursB r u = true := occursB_of_hasPre h0
                    have h3 : occursB r (a ++ u) = true := occursB_append_right a h2
                    have h4 : occursB r (qc :: (a ++ u)) = true := by
                      rw [occursB_cons, h3]
                      simp
                    rw [hqa]
                    exact h4
                  rw [hocc] at hrq
                  cases hrq

/-! ## Utility lemmas about the rule-set combinators -/

theorem runSteps_nil (st : RW) : runSteps [] st = st := rfl

theorem runSteps_cons (f : RW → RW) (l : List (RW → RW)) (st : RW) :
    runSteps (f :: l) st = runSteps l (f st) := rfl

theorem applyFixes_no_occurs {tbl : List (List Char × List Char × String)}
    {st : RW} (h : ∀ e ∈ tbl, occursB e.1 st.1 = false) :
    applyFixes tbl st = st := by
  induction tbl with
  | nil => rfl
  | cons e tbl' ih =>
    show applyFixes tbl' (if occursB e.1 st.1 then _ else st) = st
    rw [h e (List.mem_cons_self e tbl')]
    simp only [Bool.false_eq_true, if_false]
    exact ih fun e' he' => h e' (List.mem_cons_of_mem e he')

/-- The corrupted quote rule never changes the snippet text unless the
mojibake pattern `quoteWeird` occurs in it: replacing `"` by `"` is the
identity, so only the third replacement can act. -/
theorem quotesStep_text {st : RW} (h : occursB quoteWeird.data st.1 = false) :
    (quotesStep st).1 = st.1 := by
  unfold quotesStep
  split
  · show (replaceAll quoteWeird.data "'".data
      (replaceAll "\"".data "\"".data (replaceAll "\"".data "\"".data st.1))) = st.1
    rw [replaceAll_self, replaceAll_self, replaceAll_not_occurs h]
  · rfl

theorem quotesStep_fixes (st : RW) :
    (quotesStep st).2 = st.2 ∨
      (quotesStep st).2 = st.2 ++ ["Fixed smart quotes → regular quotes"] := by
  unfold quotesStep
  split
  · exact Or.inr rfl
  · exact Or.inl rfl

theorem pyFind_some_of_occurs {p s : List Char} (h : occursB p s = true) :
    ∃ i, pyFind p s = some i := by
  induction s with
  | nil =>
    simp only [occursB, List.isEmpty_iff] at h
    exact ⟨0, by simp [pyFind, h]⟩
  | cons c s' ih =>
    rw [occursB_cons, Bool.or_eq_true] at h
    by_cases hpre : hasPre p (c :: s') = true
    · exact ⟨0, by simp [pyFind, hpre]⟩
    · rcases h with h | h
      · exact absurd h hpre
      · obtain ⟨i, hi⟩ := ih h
        exact ⟨i + 1, by simp [pyFind, hpre, hi]⟩

theorem pyFind_hasPre {p s : List Char} {i : Nat}
    (h : pyFind p s = some i) : hasPre p (List.drop i s) = true := by
  induction s generalizing i with
  | nil =>
    simp only [pyFind] at h
    split at h
    · simp only [Option.some.injEq] at h
      subst h
      rename_i hp
      rw [List.isEmpty_iff] at hp
      subst hp
      rfl
    · cases h
  | cons c s' ih =>
    simp only [pyFind] at h
    split at h
    · simp only [Option.some.injEq] at h
      subst h
      rename_i hpre
      simpa using hpre
    · cases hfind : pyFind p s' with
      | none => rw [hfind] at h; cases h
      | some j =>
        rw [hfind] at h
        simp only [Option.map_some', Option.some.injEq] at h
        subst h
        rw [List.drop_succ_cons]
        exact ih hfind

theorem pyFindFrom_hasPre {p s : List Char} {i n : Nat}
    (h : pyFindFrom p s i = some n) : hasPre p (List.drop n s) = true := by
  unfold pyFindFrom at h
  cases hfind : pyFind p (List.drop i s) with
  | none => rw [hfind] at h; cases h
  | some k =>
    rw [hfind] at h
    simp only [Option.map_some', Option.some.injEq] at h
    subst h
    have h1 := pyFind_hasPre hfind
    rwa [List.drop_drop] at h1

theorem head?_of_hasPre_single {x : Char} {t : List Char}
    (h : hasPre [x] t = true) : t.head? = some x := by
  cases t with
  | nil => simp [hasPre] at h
  | cons c cs =>
    simp only [hasPre, Bool.and_eq_true, decide_eq_true_eq] at h
    rw [h.1]
    rfl

/-! ## Claim C5 -/

/-- C5 counterexample.  The claim says that for *every* dialect's rewrite
function an internal exception is caught inside the rewrite call itself.
The javascript rewrite function has no `try/except`: an exception raised
during its body escapes the rewrite call instead of being converted into a
fix record, refuting the claim at this concrete input. -/
theorem C5_counterexample :
    rewriteFault Dialect.javascript (some (0, "boom"))
      "const doc = new jsPDF();".data = Except.error "boom" := rfl

/-- C5 (amended): for the python, html and matplotlib rewrite functions an
exception raised after `k` rules is caught inside the rewrite call:
exactly one `Auto-fix encountered error` record is appended, the snippet
accumulated so far is returned normally, and the rewrite call never
propagates an exception (so the pipeline proceeds to execution). -/
theorem C5_amended :
    (∀ (d : Dialect) (k : Nat) (m : String) (c : List Char),
      dialectGuarded d = true → k < (dialectSteps d).length →
      rewriteFault d (some (k, m)) c =
        Except.ok ((runSteps ((dialectSteps d).take k) (c, [])).1,
          (runSteps ((dialectSteps d).take k) (c, [])).2 ++
            ["Auto-fix encountered error: " ++ m])) ∧
    (∀ (d : Dialect) (f : Option (Nat × String)) (c : List Char),
      dialectGuarded d = true → (rewriteFault d f c).isOk = true) := by
  constructor
  · intro d k m c hg hk
    simp [rewriteFault, hk, hg]
  · intro d f c hg
    cases f with
    | none => rfl
    | some km =>
      obtain ⟨k, m⟩ := km
      by_cases hk : k < (dialectSteps d).length
      · simp [rewriteFault, hk, hg, Except.isOk, Except.toBool]
      · simp [rewriteFault, hk, Except.isOk, Except.toBool]

/-- C5 witness: the amended theorem applied to the python dialect with an
exception after one rule. -/
theorem C5_witness :
    dialectGuarded Dialect.python = true ∧
    1 < (dialectSteps Dialect.python).length ∧
    rewriteFault Dialect.python (some (1, "boom")) "x = 1".data =
      Except.ok ((runSteps ((dialectSteps Dialect.python).take 1) ("x = 1".data, [])).1,
        (runSteps ((dialectSteps Dialect.python).take 1) ("x = 1".data, [])).2 ++
          ["Auto-fix encountered error: " ++ "boom"]) :=
  ⟨rfl, by decide, C5_amended.1 Dialect.python 1 "boom" "x = 1".data rfl (by decide)⟩

/-! ## Claim C6 -/

/-- Environment refuting C6: weasyprint is importable but `write_pdf`
raises. -/
def c6Env : ExecEnv :=
  { pyRaises := none, pyPdfScan := none, weasyAvail := true,
    weasyRaises := some "weasyprint render failure", wkRaises := none,
    fsExists := fun _ => false, fsSize := fun _ => 0,
    sizeRaises := fun _ => none, sendRaises := fun _ => none }

/-- C6 counterexample.  The claim says the markup strategy deletes its
temporary source file on every failure path.  When `write_pdf` raises, the
source's `os.unlink` line is never reached: the error propagates with the
temporary file still on disk. -/
theorem C6_counterexample :
    (execute_html_code c6Env "<p>x</p>".data).1 =
      Except.error "weasyprint render failure" ∧
    (execute_html_code c6Env "<p>x</p>".data).2 = false :=
  ⟨rfl, rfl⟩

/-- C6 (amended): the python/matplotlib strategy deletes its temporary
file on both the success and the failure path; the markup (html) strategy
deletes its temporary file exactly when rendering succeeds — on a
rendering or subprocess failure the file is left behind. -/
theorem C6_amended :
    (∀ (env : ExecEnv) (c : List Char), (execute_python_code env c).2 = true) ∧
    (∀ (env : ExecEnv) (c : List Char),
      (execute_html_code env c).2 = true ↔ (execute_html_code env c).1.isOk = true) := by
  constructor
  · intro env c
    unfold execute_python_code
    cases env.pyRaises <;> rfl
  · intro env c
    unfold execute_html_code execute_html_with_wkhtmltopdf
    by_cases hw : env.weasyAvail
    · rw [if_pos hw]
      cases env.weasyRaises <;> simp [Except.isOk, Except.toBool]
    · rw [if_neg hw]
      cases env.wkRaises <;> simp [Except.isOk, Except.toBool]

/-! ## Claim C8 -/

/-- C8 (code bug).  The claim — second application of the rewrite yields
no further character-normalization records — matches the documented intent
("Fix smart quotes"), but the source file's smart-quote literals were
destroyed by an encoding corruption: the rule now tests for a plain `"`
and replaces `"` by `"` (a no-op).  Hence on any snippet containing a
double quote the rule fires again on every application: re-running the
python fixer on its own output appends another
`Fixed smart quotes → regular quotes` record while changing nothing. -/
theorem C8_bug_eval :
    (auto_fix_python_code (auto_fix_python_code "title = \"Hello\"".data).1).2 =
      ["Fixed smart quotes → regular quotes"] ∧
    (auto_fix_python_code (auto_fix_python_code "title = \"Hello\"".data).1).1 =
      (auto_fix_python_code "title = \"Hello\"".data).1 := by
  constructor
  · decide
  · decide

/-! ## Claim C9 -/

/-- C9: a `/generate` request without a `language` form field behaves
exactly like one with `language = "python"`, and the dialect tag is
lowercased and stripped before validation, so `" PYTHON "` is accepted and
behaves exactly like `"python"`; the defaulted tag passes the
supported-language validation. -/
theorem C9_theorem :
    (∀ (env : ExecEnv) (fc : Option String),
      generate env none fc = generate env (some "python") fc) ∧
    (∀ (env : ExecEnv) (fc : Option String),
      generate env (some " PYTHON ") fc = generate env (some "python") fc) ∧
    supported_languages.contains
      (String.mk (pyStrip (lowerStr ((none : Option String).getD "python").data))) = true := by
  refine ⟨fun env fc => rfl, fun env fc => ?_, by decide⟩
  show generateCore env (pyStrip (lowerStr ((some " PYTHON " : Option String).getD "python").data)) _ =
    generateCore env (pyStrip (lowerStr ((some "python" : Option String).getD "python").data)) _
  have h : pyStrip (lowerStr ((some " PYTHON " : Option String).getD "python").data) =
      pyStrip (lowerStr ((some "python" : Option String).getD "python").data) := by decide
  rw [h]

/-! ## Auxiliary environments and inputs for C1 and C3 -/

/-- Environment for the C1 counterexample: execution succeeds, the scan
finds `out.pdf`, the file exists at finalization but is empty (size 0). -/
def c1Env : ExecEnv :=
  { pyRaises := none, pyPdfScan := some "out.pdf", weasyAvail := true,
    weasyRaises := none, wkRaises := none,
    fsExists := fun _ => true, fsSize := fun _ => 0,
    sizeRaises := fun _ => none, sendRaises := fun _ => none }

/-- C1 counterexample.  The claim requires `success == true` only when the
artifact is non-empty (size strictly greater than zero) and says the
persisted size is always positive on success.  The source only checks
`os.path.exists`: with an empty (0-byte) artifact the outcome is recorded
with `success = true` and `file_size = 0`. -/
theorem C1_counterexample :
    (generate c1Env (some "python") (some "x = 1")).logs =
      [⟨"python", 5, true, none, some ["Added comprehensive ReportLab imports"],
        some 0⟩] ∧
    (generate c1Env (some "python") (some "x = 1")).resp = Resp.file "out.pdf" := by
  constructor
  · decide
  · decide

/-- Builder-pattern snippet refuting C3: it declares `story = []`, appends
to it and never builds. -/
def c3Cex : String :=
  "pdf = SimpleDocTemplate('f.pdf')\nstory = []\nstory.append(Paragraph('Hello'))"

/-- C3 counterexample.  The claim says any python snippet with a `story`
list and append calls but no build call gets exactly one `pdf.build(story)`
appended.  The source's rule is guarded by `'story = []' not in code`, so
for this snippet — which declares the story list literally — no build call
is appended at all: the rewritten output contains zero build invocations. -/
theorem C3_counterexample :
    occursB "story = []".data c3Cex.data = true ∧
    occursB "story.append(".data c3Cex.data = true ∧
    occursB "pdf.build(".data c3Cex.data = false ∧
    occursB "doc.build(".data c3Cex.data = false ∧
    countOcc "pdf.build(".data (auto_fix_python_code c3Cex.data).1 = 0 := by
  refine ⟨by decide, by decide, by decide, by decide, by decide⟩

/-! ## Claim C7 -/

/-- C7: a validated, safety-passing request in the browser-scripting
(javascript) dialect always fails with the fixed advisory error at HTTP
500; no artifact is produced (the response is plain text, not a file) and
the single persisted outcome has `success = false` and a null artifact
size. -/
theorem C7_theorem (env : ExecEnv) (fc : Option String) (ucode : List Char)
    (hcode : ucode = pyStrip ((fc.getD "").data))
    (hne : ucode.isEmpty = false)
    (hfilter : dangerous_patterns.find? (fun p =>
      occursB p.data (lowerStr ucode) &&
        !(safe_contexts.any fun sc => occursB sc.data ucode)) = none) :
    generate env (some "javascript") fc =
      { resp := Resp.text 500 ("Code execution error: " ++
          "JavaScript execution requires Node.js setup. Please use Python or HTML instead."),
        logs := [⟨"javascript", ucode.length, false,
          some ("Code execution error: " ++
            "JavaScript execution requires Node.js setup. Please use Python or HTML instead."),
          some (auto_fix_javascript_code ucode).2, none⟩],
        rewriteInvoked := true, execInvoked := true } := by
  have hl : pyStrip (lowerStr ((some "javascript" : Option String).getD "python").data) =
      "javascript".data := by decide
  show generateCore env
    (pyStrip (lowerStr ((some "javascript" : Option String).getD "python").data))
    (pyStrip ((fc.getD "").data)) = _
  rw [hl, ← hcode]
  unfold generateCore
  rw [show supported_languages.contains (String.mk "javascript".data) = true from by decide]
  rw [hne]
  simp only [Bool.not_true, Bool.false_eq_true, if_false, List.isEmpty_eq_true]
  rw [hfilter]
  have hrl : runLang env "javascript".data ucode =
      ((auto_fix_javascript_code ucode).2,
        execute_javascript_code (auto_fix_javascript_code ucode).1) := by
    unfold runLang
    rw [if_neg (by decide), if_neg (by decide), if_neg (by decide), if_pos rfl]
  rw [hrl]
  rfl

/-- C7 witness: a concrete javascript request. -/
theorem C7_witness :
    ("doc.text('hi');".data = pyStrip ((((some "doc.text('hi');") : Option String).getD "").data)) ∧
    ("doc.text('hi');".data : List Char).isEmpty = false ∧
    generate c6Env (some "javascript") (some "doc.text('hi');") =
      { resp := Resp.text 500 ("Code execution error: " ++
          "JavaScript execution requires Node.js setup. Please use Python or HTML instead."),
        logs := [⟨"javascript", ("doc.text('hi');".data : List Char).length, false,
          some ("Code execution error: " ++
            "JavaScript execution requires Node.js setup. Please use Python or HTML instead."),
          some (auto_fix_javascript_code "doc.text('hi');".data).2, none⟩],
        rewriteInvoked := true, execInvoked := true } :=
  ⟨by decide, by decide,
    C7_theorem c6Env (some "doc.text('hi');") "doc.text('hi');".data
      (by decide) (by decide) (by decide)⟩

/-! ## Claim C1 -/

/-- C1 (amended): for every validated, safety-passing request, the
recorder receives a `success = true` record exactly when the execution
strategy returned a non-empty artifact path that `os.path.exists`
confirms present and `os.path.getsize` then succeeds; that record's
persisted size is whatever `os.path.getsize` reports — no positivity
check is made, so it is non-null but possibly zero.  The success record
is the only record unless `send_file` subsequently raises, in which case
one additional `success = false` record (`Error sending file: ...`)
follows it; on every other path exactly one `success = false` record is
logged. -/
theorem C1_amended (env : ExecEnv) (fl fc : Option String) (lang ucode : List Char)
    (hlang : lang = pyStrip (lowerStr ((fl.getD "python").data)))
    (hcode : ucode = pyStrip ((fc.getD "").data))
    (hsup : supported_languages.contains (String.mk lang) = true)
    (hne : ucode.isEmpty = false)
    (hfilter : dangerous_patterns.find? (fun p =>
      occursB p.data (lowerStr ucode) &&
        !(safe_contexts.any fun sc => occursB sc.data ucode)) = none) :
    ((∃ r ∈ (generate env fl fc).logs, r.success = true) ↔
      ∃ p, (runLang env lang ucode).2 = Except.ok (some p) ∧
        p.isEmpty = false ∧ env.fsExists p = true ∧ env.sizeRaises p = none) ∧
    (∀ p, (runLang env lang ucode).2 = Except.ok (some p) →
      p.isEmpty = false → env.fsExists p = true → env.sizeRaises p = none →
      (env.sendRaises p = none →
        (generate env fl fc).logs =
          [⟨String.mk lang, ucode.length, true, none,
            some (runLang env lang ucode).1, some (env.fsSize p)⟩] ∧
        (generate env fl fc).resp = Resp.file p) ∧
      (∀ m, env.sendRaises p = some m →
        (generate env fl fc).logs =
          [⟨String.mk lang, ucode.length, true, none,
              some (runLang env lang ucode).1, some (env.fsSize p)⟩,
            ⟨String.mk lang, ucode.length, false,
              some ("Error sending file: " ++ m),
              some (runLang env lang ucode).1, none⟩])) ∧
    ((¬ ∃ p, (runLang env lang ucode).2 = Except.ok (some p) ∧
        p.isEmpty = false ∧ env.fsExists p = true ∧ env.sizeRaises p = none) →
      ∃ r, (generate env fl fc).logs = [r] ∧ r.success = false) := by
  subst hlang hcode
  simp only [generate]
  unfold generateCore
  rw [hsup, hne]
  simp only [Bool.not_true, Bool.false_eq_true, if_false, List.isEmpty_eq_true]
  rw [hfilter]
  rcases hrl : runLang env (pyStrip (lowerStr ((fl.getD "python").data)))
    (pyStrip ((fc.getD "").data)) with ⟨fixes, res⟩
  cases res with
  | error e =>
    refine ⟨?_, ?_, fun _ => ⟨_, rfl, rfl⟩⟩
    · constructor
      · rintro ⟨r, hr, hs⟩
        simp only [List.mem_singleton] at hr
        subst hr
        cases hs
      · rintro ⟨p, hp, -, -, -⟩
        simp at hp
    · intro p hp
      simp at hp
  | ok pdfOpt =>
    cases pdfOpt with
    | none =>
      refine ⟨?_, ?_, fun _ => ⟨_, rfl, rfl⟩⟩
      · constructor
        · rintro ⟨r, hr, hs⟩
          simp only [List.mem_singleton] at hr
          subst hr
          cases hs
        · rintro ⟨p, hp, -, -, -⟩
          simp at hp
      · intro p hp
        simp at hp
    | some p =>
      dsimp only
      split
      · rename_i hb
        have hb0 := hb
        rw [Bool.and_eq_true, Bool.not_eq_true'] at hb0
        obtain ⟨hb1, hb2⟩ := hb0
        split
        · rename_i m hsz
          refine ⟨?_, ?_, fun _ => ⟨_, rfl, rfl⟩⟩
          · constructor
            · rintro ⟨r, hr, hs⟩
              simp only [List.mem_singleton] at hr
              subst hr
              cases hs
            · rintro ⟨p', hp', -, -, hsz'⟩
              have hpp : p = p' := by simpa using hp'
              subst hpp
              rw [hsz] at hsz'
              cases hsz'
          · intro p' hp' hq1 hq2 hsz'
            have hpp : p = p' := by simpa using hp'
            subst hpp
            rw [hsz] at hsz'
            cases hsz'
        · rename_i hsz
          split
          · rename_i m2 hsd
            refine ⟨?_, ?_, ?_⟩
            · exact ⟨fun _ => ⟨p, rfl, hb1, hb2, hsz⟩,
                fun _ => ⟨_, List.mem_cons_self _ _, rfl⟩⟩
            · intro p' hp' hq1 hq2 hq3
              have hpp : p = p' := by simpa using hp'
              subst hpp
              refine ⟨?_, ?_⟩
              · intro hnone
                rw [hsd] at hnone
                cases hnone
              · intro m hm
                rw [hsd] at hm
                have hmm : m2 = m := by injection hm
                subst hmm
                rfl
            · intro hno
              exact absurd ⟨p, rfl, hb1, hb2, hsz⟩ hno
          · rename_i hsd
            refine ⟨?_, ?_, ?_⟩
            · exact ⟨fun _ => ⟨p, rfl, hb1, hb2, hsz⟩,
                fun _ => ⟨_, List.mem_singleton.mpr rfl, rfl⟩⟩
            · intro p' hp' hq1 hq2 hq3
              have hpp : p = p' := by simpa using hp'
              subst hpp
              refine ⟨fun _ => ⟨rfl, rfl⟩, ?_⟩
              intro m hm
              rw [hsd] at hm
              cases hm
            · intro hno
              exact absurd ⟨p, rfl, hb1, hb2, hsz⟩ hno
      · rename_i hb
        have hb' : (!p.isEmpty && env.fsExists p) = false := by
          cases h : (!p.isEmpty && env.fsExists p)
          · rfl
          · exact absurd h hb
        refine ⟨?_, ?_, fun _ => ⟨_, rfl, rfl⟩⟩
        · constructor
          · rintro ⟨r, hr, hs⟩
            simp only [List.mem_singleton] at hr
            subst hr
            cases hs
          · rintro ⟨p', hp', hpe, hpex, -⟩
            have hpp : p = p' := by simpa using hp'
            subst hpp
            rw [hpe, hpex] at hb'
            simp at hb'
        · intro p' hp' hpe hpex hq3
          have hpp : p = p' := by simpa using hp'
          subst hpp
          rw [hpe, hpex] at hb'
          simp at hb'

/-- C1 witness: a concrete successful python request (non-empty artifact)
satisfying the amended characterization. -/
def c1GoodEnv : ExecEnv :=
  { pyRaises := none, pyPdfScan := some "out.pdf", weasyAvail := true,
    weasyRaises := none, wkRaises := none,
    fsExists := fun _ => true, fsSize := fun _ => 7,
    sizeRaises := fun _ => none, sendRaises := fun _ => none }

theorem C1_witness :
    ("python".data = pyStrip (lowerStr (((some "python" : Option String)).getD "python").data)) ∧
    ("x = 1".data = pyStrip (((some "x = 1" : Option String).getD "").data)) ∧
    supported_languages.contains (String.mk "python".data) = true ∧
    ("x = 1".data : List Char).isEmpty = false ∧
    (((∃ r ∈ (generate c1GoodEnv (some "python") (some "x = 1")).logs, r.success = true) ↔
      ∃ p, (runLang c1GoodEnv "python".data "x = 1".data).2 = Except.ok (some p) ∧
        p.isEmpty = false ∧ c1GoodEnv.fsExists p = true ∧ c1GoodEnv.sizeRaises p = none) ∧
    (∀ p, (runLang c1GoodEnv "python".data "x = 1".data).2 = Except.ok (some p) →
      p.isEmpty = false → c1GoodEnv.fsExists p = true → c1GoodEnv.sizeRaises p = none →
      (c1GoodEnv.sendRaises p = none →
        (generate c1GoodEnv (some "python") (some "x = 1")).logs =
          [⟨String.mk "python".data, ("x = 1".data : List Char).length, true, none,
            some (runLang c1GoodEnv "python".data "x = 1".data).1,
            some (c1GoodEnv.fsSize p)⟩] ∧
        (generate c1GoodEnv (some "python") (some "x = 1")).resp = Resp.file p) ∧
      (∀ m, c1GoodEnv.sendRaises p = some m →
        (generate c1GoodEnv (some "python") (some "x = 1")).logs =
          [⟨String.mk "python".data, ("x = 1".data : List Char).length, true, none,
              some (runLang c1GoodEnv "python".data "x = 1".data).1,
              some (c1GoodEnv.fsSize p)⟩,
            ⟨String.mk "python".data, ("x = 1".data : List Char).length, false,
              some ("Error sending file: " ++ m),
              some (runLang c1GoodEnv "python".data "x = 1".data).1, none⟩])) ∧
    ((¬ ∃ p, (runLang c1GoodEnv "python".data "x = 1".data).2 = Except.ok (some p) ∧
        p.isEmpty = false ∧ c1GoodEnv.fsExists p = true ∧ c1GoodEnv.sizeRaises p = none) →
      ∃ r, (generate c1GoodEnv (some "python") (some "x = 1")).logs = [r] ∧
        r.success = false)) :=
  ⟨by decide, by decide, by decide, by decide,
    C1_amended c1GoodEnv (some "python") (some "x = 1") "python".data "x = 1".data
      (by decide) (by decide) (by decide) (by decide) (by decide)⟩

/-! ## Claim C2 -/

/-- C2: for a validated request, the safety filter rejects with HTTP 400 —
before the rewrite rules or any execution strategy is invoked — exactly
when some disallowed pattern occurs (case-insensitively, via the lowercased
snippet) in the stripped submitted snippet and no allow-listed carve-out
substring occurs verbatim in it; the rejection message names the first
matching pattern in declaration order, and with no match (or with a
carve-out present) the pipeline goes on to invoke rewrite and execution. -/
theorem C2_theorem (env : ExecEnv) (fl fc : Option String) (lang ucode : List Char)
    (hlang : lang = pyStrip (lowerStr ((fl.getD "python").data)))
    (hcode : ucode = pyStrip ((fc.getD "").data))
    (hsup : supported_languages.contains (String.mk lang) = true)
    (hne : ucode.isEmpty = false) :
    (∀ p : String,
      dangerous_patterns.find? (fun q => occursB q.data (lowerStr ucode)) = some p →
      (∀ sc ∈ safe_contexts, occursB sc.data ucode = false) →
      generate env fl fc =
        { resp := Resp.text 400 ("Code contains potentially dangerous pattern: " ++ p),
          logs := [⟨String.mk lang, ucode.length, false,
            some ("Code contains potentially dangerous pattern: " ++ p), none, none⟩],
          rewriteInvoked := false, execInvoked := false }) ∧
    ((dangerous_patterns.find? (fun q => occursB q.data (lowerStr ucode)) = none ∨
        ∃ sc ∈ safe_contexts, occursB sc.data ucode = true) →
      (generate env fl fc).rewriteInvoked = true ∧
      (generate env fl fc).execInvoked = true) := by
  subst hlang hcode
  constructor
  · intro p hfind hnosafe
    have hany : (safe_contexts.any fun sc =>
        occursB sc.data (pyStrip ((fc.getD "").data))) = false := by
      rw [List.any_eq_false]
      intro sc hsc
      simp [hnosafe sc hsc]
    show generateCore env _ _ = _
    unfold generateCore
    rw [hsup, hne]
    simp only [Bool.not_true, Bool.false_eq_true, if_false, List.isEmpty_eq_true]
    simp only [hany, Bool.not_false, Bool.and_true]
    rw [hfind]
  · intro hdisj
    have hnone : dangerous_patterns.find? (fun q =>
        occursB q.data (lowerStr (pyStrip ((fc.getD "").data))) &&
          !(safe_contexts.any fun sc =>
            occursB sc.data (pyStrip ((fc.getD "").data)))) = none := by
      rcases hdisj with hfn | ⟨sc, hmem, hocc⟩
      · rw [List.find?_eq_none] at hfn ⊢
        intro q hq h
        rw [Bool.and_eq_true] at h
        exact absurd h.1 (hfn q hq)
      · have hany : (safe_contexts.any fun sc =>
            occursB sc.data (pyStrip ((fc.getD "").data))) = true :=
          List.any_eq_true.mpr ⟨sc, hmem, hocc⟩
        rw [List.find?_eq_none]
        intro q hq h
        rw [Bool.and_eq_true, hany] at h
        simp at h
    show (generateCore env _ _).rewriteInvoked = true ∧
      (generateCore env _ _).execInvoked = true
    unfold generateCore
    rw [hsup, hne]
    simp only [Bool.not_true, Bool.false_eq_true, if_false, List.isEmpty_eq_true]
    rw [hnone]
    rcases hrl : runLang env (pyStrip (lowerStr ((fl.getD "python").data)))
      (pyStrip ((fc.getD "").data)) with ⟨fixes, res⟩
    cases res with
    | error e => exact ⟨rfl, rfl⟩
    | ok pdfOpt =>
      cases pdfOpt with
      | none => exact ⟨rfl, rfl⟩
      | some p =>
        cases hb : (!p.isEmpty && env.fsExists p)
        · simp [hb]
        · rcases hsz : env.sizeRaises p with _ | m
          · rcases hsd : env.sendRaises p with _ | m2
            · simp [hb, hsz, hsd]
            · simp [hb, hsz, hsd]
          · simp [hb, hsz]

/-- C2 witness: a concrete validated request (which contains no dangerous
pattern, so the filter lets it through). -/
theorem C2_witness :
    ("python".data = pyStrip (lowerStr (((some "python" : Option String)).getD "python").data)) ∧
    ("x = 1".data = pyStrip (((some "x = 1" : Option String).getD "").data)) ∧
    supported_languages.contains (String.mk "python".data) = true ∧
    ("x = 1".data : List Char).isEmpty = false ∧
    ((∀ p : String,
      dangerous_patterns.find? (fun q => occursB q.data (lowerStr "x = 1".data)) = some p →
      (∀ sc ∈ safe_contexts, occursB sc.data "x = 1".data = false) →
      generate c1GoodEnv (some "python") (some "x = 1") =
        { resp := Resp.text 400 ("Code contains potentially dangerous pattern: " ++ p),
          logs := [⟨String.mk "python".data, ("x = 1".data : List Char).length, false,
            some ("Code contains potentially dangerous pattern: " ++ p), none, none⟩],
          rewriteInvoked := false, execInvoked := false }) ∧
    ((dangerous_patterns.find? (fun q => occursB q.data (lowerStr "x = 1".data)) = none ∨
        ∃ sc ∈ safe_contexts, occursB sc.data "x = 1".data = true) →
      (generate c1GoodEnv (some "python") (some "x = 1")).rewriteInvoked = true ∧
      (generate c1GoodEnv (some "python") (some "x = 1")).execInvoked = true)) :=
  ⟨by decide, by decide, by decide, by decide,
    C2_theorem c1GoodEnv (some "python") (some "x = 1") "python".data "x = 1".data
      (by decide) (by decide) (by decide) (by decide)⟩

/-! ## Per-step text lemmas for the matplotlib rule set -/

theorem mplImportsStep_text {st : RW} (h1 : occursB "matplotlib".data st.1 = false)
    (h2 : occursB "plt.".data st.1 = true) :
    (mplImportsStep st).1 = mplImports.data ++ st.1 := by
  simp [mplImportsStep, h1, h2]

theorem mplBackendStep_id {st : RW}
    (h : occursB "matplotlib.use(".data st.1 = true) : mplBackendStep st = st := by
  simp [mplBackendStep, h]

theorem mplNumpyStep_id {st : RW}
    (h : occursB "import numpy".data st.1 = true) : mplNumpyStep st = st := by
  simp [mplNumpyStep, h]

theorem mplPandasStep_id {st : RW}
    (h : occursB "import pandas".data st.1 = true) : mplPandasStep st = st := by
  simp [mplPandasStep, h]

theorem mplSaveStep_text {st : RW} (h1 : occursB "plt.".data st.1 = true)
    (h2 : occursB "savefig(".data st.1 = false)
    (h3 : occursB "save(".data st.1 = false) :
    (mplSaveStep st).1 = st.1 ++ mplSaveCmds.data := by
  simp [mplSaveStep, h1, h2, h3]

theorem mplExtStep_id {st : RW}
    (h1 : occursB ".png".data st.1 = false)
    (h2 : occursB ".jpg".data st.1 = false)
    (h3 : occursB ".jpeg".data st.1 = false) : mplExtStep st = st := by
  unfold mplExtStep
  rw [h1, h2, h3]
  simp

/-- Transfer a head-character boundary hypothesis into the form the
boundary lemmas expect. -/
theorem headNot_of_head_newline {t pat : List Char}
    (ht : t.head? = some '\n') (hni : '\n' ∉ pat) :
    ∀ x, t.head? = some x → x ∉ pat := by
  intro x hx
  rw [ht] at hx
  injection hx with h
  exact h ▸ hni

/-! ## Claim C4 -/

/-- A replacement never reaches into a pattern-free left segment whose last
character is outside the pattern: `replaceAll` factors through the append
(auxiliary form with the segment last). -/
theorem replaceAll_append_lastNotAux {p r : List Char} (hp : p ≠ []) {z : Char}
    (hniz : z ∉ p) (b : List Char) :
    ∀ {a : List Char}, a.getLast? = some z → occursB p a = false →
      replaceAll p r (a ++ b) = a ++ replaceAll p r b := by
  intro a
  induction a with
  | nil =>
    intro hz _
    simp at hz
  | cons x a' ih =>
    intro hz hocc
    rw [occursB_cons, Bool.or_eq_false_iff] at hocc
    have hpre : hasPre p ((x :: a') ++ b) = false := by
      rw [hasPre_append_lastNot hz hniz b]
      exact hocc.1
    rw [List.cons_append] at hpre ⊢
    rw [replaceAll_neg r hp hpre]
    cases a' with
    | nil => simp
    | cons y a'' =>
      have hz' : (y :: a'').getLast? = some z := by
        rw [← hz, List.getLast?_cons_cons]
      rw [ih hz' hocc.2]
      rfl

/-- `replaceAll` factors out an occurrence-free left segment ending in a
character that the pattern does not contain. -/
theorem replaceAll_append_lastNot {p r a : List Char} {z : Char} (hp : p ≠ [])
    (hz : a.getLast? = some z) (hniz : z ∉ p) (hocc : occursB p a = false)
    (b : List Char) :
    replaceAll p r (a ++ b) = a ++ replaceAll p r b :=
  replaceAll_append_lastNotAux hp hniz b hz hocc

/-- One iteration of the fix-table loop, as an unfolding equation. -/
theorem applyFixes_cons (e : List Char × List Char × String)
    (tbl : List (List Char × List Char × String)) (st : RW) :
    applyFixes (e :: tbl) st =
      applyFixes tbl
        (if occursB e.1 st.1 then (replaceAll e.1 e.2.1 st.1, st.2 ++ [e.2.2])
         else st) := rfl

/-- Running a fix table over a text of the form `M ++ c`, where no table
pattern occurs in `M` and `M` ends in a character outside every pattern,
leaves `M` untouched; and when no replacement can seed the forbidden
pattern `q`, the remainder stays `q`-free. -/
theorem applyFixes_factor {q M : List Char} {z : Char}
    (hzM : M.getLast? = some z) :
    ∀ {tbl : List (List Char × List Char × String)},
      (∀ e ∈ tbl, e.1 ≠ [] ∧ z ∉ e.1 ∧ occursB e.1 M = false ∧
        safeRepl q e.2.1 = true) →
      ∀ {st : RW} {c : List Char}, st.1 = M ++ c → occursB q c = false →
        ∃ d, (applyFixes tbl st).1 = M ++ d ∧ occursB q d = false := by
  intro tbl
  induction tbl with
  | nil =>
    intro _ st c hst hqc
    exact ⟨c, hst, hqc⟩
  | cons e tbl' ih =>
    intro h st c hst hqc
    have he := h e (List.mem_cons_self e tbl')
    rw [applyFixes_cons]
    by_cases hg : occursB e.1 st.1 = true
    · rw [if_pos hg]
      have hst' : replaceAll e.1 e.2.1 st.1 = M ++ replaceAll e.1 e.2.1 c := by
        rw [hst]
        exact replaceAll_append_lastNot he.1 hzM he.2.1 he.2.2.1 c
      exact ih (fun e' he' => h e' (List.mem_cons_of_mem e he')) hst'
        (occursB_replaceAll_false he.2.2.2 hqc)
    · rw [if_neg hg]
      exact ih (fun e' he' => h e' (List.mem_cons_of_mem e he')) hst hqc

/-- The savefig-completion rule either leaves the text alone or appends
the save commands. -/
theorem mplSaveStep_cases (st : RW) :
    (mplSaveStep st).1 = st.1 ∨ (mplSaveStep st).1 = st.1 ++ mplSaveCmds.data := by
  unfold mplSaveStep
  split
  · exact Or.inr rfl
  · exact Or.inl rfl

/-- The output-extension rule leaves the text alone, or rewrites `.png`,
or rewrites `.jpg`/`.jpeg`. -/
theorem mplExtStep_cases (st : RW) :
    (mplExtStep st).1 = st.1 ∨
    (mplExtStep st).1 = replaceAll ".png".data ".pdf".data st.1 ∨
    (mplExtStep st).1 = replaceAll ".jpeg".data ".pdf".data
      (replaceAll ".jpg".data ".pdf".data st.1) := by
  unfold mplExtStep
  split
  · split
    · exact Or.inr (Or.inl rfl)
    · split
      · exact Or.inr (Or.inr rfl)
      · exact Or.inl rfl
  · exact Or.inl rfl

/-- If a prefix of a pattern does not occur, the pattern does not occur. -/
theorem occursB_false_of_pre {u v s : List Char}
    (h : occursB u s = false) : occursB (u ++ v) s = false := by
  cases hq : occursB (u ++ v) s
  · rfl
  · rw [occursB_of_occursB_append hq] at h
    cases h

/-- C4 counterexample.  The claim says every snippet referencing `plt.`
with no matplotlib-style import gets the inferred import block and exactly
one backend directive.  The code's dependency trigger is the literal
substring test `'matplotlib' not in code`: this snippet contains no import
statement at all, but its comment mentions matplotlib, so the rule is
suppressed — the rewritten output does not start with the import block and
contains zero `matplotlib.use('Agg')` directives. -/
theorem C4_counterexample :
    occursB "plt.".data "# matplotlib\nplt.plot([1, 2])".data = true ∧
    occursB "import".data "# matplotlib\nplt.plot([1, 2])".data = false ∧
    hasPre mplImports.data
      (auto_fix_matplotlib_code "# matplotlib\nplt.plot([1, 2])".data).1 = false ∧
    countOcc "matplotlib.use('Agg')".data
      (auto_fix_matplotlib_code "# matplotlib\nplt.plot([1, 2])".data).1 = 0 := by
  refine ⟨by decide, by decide, by decide, by decide⟩

/-- C4 (amended): the dependency trigger of the visualization rewrite is
the literal substring test `'matplotlib' not in code and ('plt.' in code
or 'pyplot' in code)`, so any occurrence of the text `matplotlib` — even
in a comment — suppresses the import insertion (see the counterexample).
For every snippet referencing `plt.` whose text contains no `matplotlib`
substring at all (and is free of the corrupted quote-rule pattern), the
rewritten output starts with the inferred matplotlib/numpy/pandas import
block and contains exactly one `matplotlib.use('Agg')` backend directive,
whatever other rules (display-call removal, save-command insertion,
extension rewriting) fire on the snippet. -/
theorem C4_amended (c : List Char)
    (hplt : occursB "plt.".data c = true)
    (hnompl : occursB "matplotlib".data c = false)
    (hw : occursB quoteWeird.data c = false) :
    hasPre mplImports.data (auto_fix_matplotlib_code c).1 = true ∧
    countOcc "matplotlib.use('Agg')".data (auto_fix_matplotlib_code c).1 = 1 := by
  have hMl : mplImports.data.getLast? = some '\n' := by decide
  have hchain : auto_fix_matplotlib_code c =
      mplExtStep (mplSaveStep (applyFixes mpl_fixes (mplPandasStep (mplNumpyStep
        (mplBackendStep (mplImportsStep (quotesStep (c, [])))))))) := by
    simp only [auto_fix_matplotlib_code, runSteps, matplotlibSteps,
      List.foldl_cons, List.foldl_nil]
  have e1 : (quotesStep (c, [])).1 = c := quotesStep_text hw
  have e2 : (mplImportsStep (quotesStep (c, []))).1 = mplImports.data ++ c := by
    rw [mplImportsStep_text (by rw [e1]; exact hnompl) (by rw [e1]; exact hplt), e1]
  have e3 : mplBackendStep (mplImportsStep (quotesStep (c, []))) =
      mplImportsStep (quotesStep (c, [])) :=
    mplBackendStep_id (by
      rw [e2]
      exact occursB_append_left c (by decide))
  have e4 : mplNumpyStep (mplImportsStep (quotesStep (c, []))) =
      mplImportsStep (quotesStep (c, [])) :=
    mplNumpyStep_id (by
      rw [e2]
      exact occursB_append_left c (by decide))
  have e5 : mplPandasStep (mplImportsStep (quotesStep (c, []))) =
      mplImportsStep (quotesStep (c, [])) :=
    mplPandasStep_id (by
      rw [e2]
      exact occursB_append_left c (by decide))
  have hfull : auto_fix_matplotlib_code c =
      mplExtStep (mplSaveStep (applyFixes mpl_fixes
        (mplImportsStep (quotesStep (c, []))))) := by
    rw [hchain, e3, e4, e5]
  have e6 : ∃ d, (applyFixes mpl_fixes (mplImportsStep (quotesStep (c, [])))).1 =
      mplImports.data ++ d ∧ occursB "matplotlib".data d = false :=
    applyFixes_factor hMl (by decide) e2 hnompl
  obtain ⟨d, hd, hqd⟩ := e6
  have hsave : ∃ d1, (mplSaveStep (applyFixes mpl_fixes
      (mplImportsStep (quotesStep (c, []))))).1 = mplImports.data ++ d1 ∧
      occursB "matplotlib".data d1 = false := by
    rcases mplSaveStep_cases (applyFixes mpl_fixes
      (mplImportsStep (quotesStep (c, [])))) with hs | hs
    · exact ⟨d, by rw [hs, hd], hqd⟩
    · refine ⟨d ++ mplSaveCmds.data, by rw [hs, hd, List.append_assoc], ?_⟩
      rw [@occursB_append_headNot "matplotlib".data mplSaveCmds.data (by decide)
        (headNot_of_head_newline (by decide) (by decide)) d, hqd]
      decide
  obtain ⟨d1, hd1, hqd1⟩ := hsave
  have hext : ∃ d2, (mplExtStep (mplSaveStep (applyFixes mpl_fixes
      (mplImportsStep (quotesStep (c, [])))))).1 = mplImports.data ++ d2 ∧
      occursB "matplotlib".data d2 = false := by
    rcases mplExtStep_cases (mplSaveStep (applyFixes mpl_fixes
      (mplImportsStep (quotesStep (c, []))))) with he | he | he
    · exact ⟨d1, by rw [he, hd1], hqd1⟩
    · refine ⟨replaceAll ".png".data ".pdf".data d1, ?_,
        @occursB_replaceAll_false "matplotlib".data ".pdf".data (by decide)
          ".png".data d1 hqd1⟩
      rw [he, hd1,
        @replaceAll_append_lastNot ".png".data ".pdf".data mplImports.data '\n'
          (by decide) hMl (by decide) (by decide) d1]
    · refine ⟨replaceAll ".jpeg".data ".pdf".data
          (replaceAll ".jpg".data ".pdf".data d1), ?_,
        @occursB_replaceAll_false "matplotlib".data ".pdf".data (by decide)
          ".jpeg".data _
          (@occursB_replaceAll_false "matplotlib".data ".pdf".data (by decide)
            ".jpg".data d1 hqd1)⟩
      rw [he, hd1,
        @replaceAll_append_lastNot ".jpg".data ".pdf".data mplImports.data '\n'
          (by decide) hMl (by decide) (by decide) d1,
        @replaceAll_append_lastNot ".jpeg".data ".pdf".data mplImports.data '\n'
          (by decide) hMl (by decide) (by decide)
          (replaceAll ".jpg".data ".pdf".data d1)]
  obtain ⟨d2, hd2, hqd2⟩ := hext
  rw [hfull, hd2]
  constructor
  · exact hasPre_append_self _ _
  · rw [@countOcc_append_lastNot "matplotlib.use('Agg')".data mplImports.data '\n'
      (by decide) hMl (by decide) d2]
    have h0 : occursB "matplotlib.use('Agg')".data d2 = false := by
      rw [show "matplotlib.use('Agg')".data =
        "matplotlib".data ++ ".use('Agg')".data from by decide]
      exact occursB_false_of_pre hqd2
    rw [countOcc_eq_zero h0,
      show countOcc "matplotlib.use('Agg')".data mplImports.data = 1 from by decide]

/-- C4 witness: a concrete plotting snippet. -/
theorem C4_witness :
    occursB "plt.".data "plt.plot([1, 2], [3, 4])\nplt.title('demo')".data = true ∧
    occursB "matplotlib".data "plt.plot([1, 2], [3, 4])\nplt.title('demo')".data = false ∧
    occursB quoteWeird.data "plt.plot([1, 2], [3, 4])\nplt.title('demo')".data = false ∧
    hasPre mplImports.data
      (auto_fix_matplotlib_code "plt.plot([1, 2], [3, 4])\nplt.title('demo')".data).1 =
        true ∧
    countOcc "matplotlib.use('Agg')".data
      (auto_fix_matplotlib_code
        "plt.plot([1, 2], [3, 4])\nplt.title('demo')".data).1 = 1 := by
  have h := C4_amended "plt.plot([1, 2], [3, 4])\nplt.title('demo')".data
    (by decide) (by decide) (by decide)
  exact ⟨by decide, by decide, by decide, h.1, h.2⟩


/-! ## Claim C3 (amended) -/

/-- Dependency completion: when neither reportlab import marker occurs, the
ReportLab import block is prepended and the fix is logged. -/
theorem pyImportsStep_text {st : RW}
    (h1 : occursB "from reportlab".data st.1 = false)
    (h2 : occursB "import reportlab".data st.1 = false) :
    pyImportsStep st =
      (pyImports.data ++ st.1, st.2 ++ ["Added comprehensive ReportLab imports"]) := by
  simp [pyImportsStep, h1, h2]

/-- The defensive-wrapping rule is the identity when `def ` does not occur. -/
theorem pyErrStep_id {st : RW}
    (h : occursB "def ".data st.1 = false) : pyErrStep st = st := by
  simp [pyErrStep, h]

/-- The third branch of the entry-point chain: a snippet that uses
Paragraph(/Spacer( and story.append( but has no `story = []`, no build
call, no `def ` and no `pdf = SimpleDocTemplate(` gets exactly the
`pdf.build(story)` call appended. -/
theorem pyEntryStep_branch3 {st : RW}
    (hd : occursB "def ".data st.1 = false)
    (hP : (occursB "Paragraph(".data st.1 || occursB "Spacer(".data st.1) = true)
    (hs : occursB "story = []".data st.1 = false)
    (hsdt : occursB "pdf = SimpleDocTemplate(".data st.1 = false)
    (ha : occursB "story.append(".data st.1 = true)
    (hpb : occursB "pdf.build(".data st.1 = false)
    (hdb : occursB "doc.build(".data st.1 = false) :
    pyEntryStep st =
      (st.1 ++ "\n\npdf.build(story)".data,
       st.2 ++ ["Added missing pdf.build(story)"]) := by
  have hd1 : occursB "def build_pdf(".data st.1 = false := by
    rw [show "def build_pdf(".data = "def ".data ++ "build_pdf(".data from by decide]
    exact occursB_false_of_pre hd
  simp [pyEntryStep, hd1, hd, hP, hs, hsdt, ha, hpb, hdb]

/-- C3 (amended): for every python snippet that uses `Paragraph(`/`Spacer(`
and `story.append(` but contains neither the literal text `story = []` nor
any build call nor any `def ` nor the other rewrite-rule trigger strings,
the rewrite output is the import block, the snippet, and an appended
`pdf.build(story)` call; the output contains exactly one `pdf.build(`,
and it lies entirely after the original snippet text. -/
theorem C3_amended (c : List Char)
    (hw : occursB quoteWeird.data c = false)
    (huni : (["\u2013", "\u2014", "\u2026", uniKey4] : List String).all
      (fun pat => !occursB pat.data c) = true)
    (himp : occursB "from reportlab".data c = false)
    (himp2 : occursB "import reportlab".data c = false)
    (hpaths : (["/mnt/data/", "~/", "C:\\", "D:\\",
        "fileName =", "filename =", "pdfFile =", "outputFile ="] : List String).all
      (fun pat => !occursB pat.data c) = true)
    (hd : occursB "def ".data c = false)
    (hP : (occursB "Paragraph(".data c || occursB "Spacer(".data c) = true)
    (hs : occursB "story = []".data c = false)
    (hsdt : occursB "pdf = SimpleDocTemplate(".data c = false)
    (ha : occursB "story.append(".data c = true)
    (hpb : occursB "pdf.build(".data c = false)
    (hdb : occursB "doc.build(".data c = false)
    (halign : (["alignment=center", "alignment=\"center\"", "alignment=left",
        "alignment=\"left\"", "alignment=right", "alignment=\"right\"",
        "alignment=justify", "alignment=\"justify\"",
        "colors.hexcolor(", "Colors.HexColor(", "getSampleStylesheet()",
        "getStyleSheet()"] : List String).all
      (fun pat => !occursB pat.data c) = true) :
    (auto_fix_python_code c).1 =
      (pyImports.data ++ c) ++ "\n\npdf.build(story)".data ∧
    occursB "pdf.build(".data (pyImports.data ++ c) = false ∧
    countOcc "pdf.build(".data (auto_fix_python_code c).1 = 1 := by
  have huniF : ∀ pat : String,
      pat ∈ (["\u2013", "\u2014", "\u2026", uniKey4] : List String) →
      occursB pat.data c = false := by
    intro pat hm
    have := List.all_eq_true.mp huni pat hm
    simpa using this
  have hof : ∀ pat : String,
      pat ∈ (["/mnt/data/", "~/", "C:\\", "D:\\",
        "fileName =", "filename =", "pdfFile =", "outputFile ="] : List String) →
      occursB pat.data c = false := by
    intro pat hm
    have := List.all_eq_true.mp hpaths pat hm
    simpa using this
  have hof2 : ∀ pat : String,
      pat ∈ (["alignment=center", "alignment=\"center\"", "alignment=left",
        "alignment=\"left\"", "alignment=right", "alignment=\"right\"",
        "alignment=justify", "alignment=\"justify\"",
        "colors.hexcolor(", "Colors.HexColor(", "getSampleStylesheet()",
        "getStyleSheet()"] : List String) →
      occursB pat.data c = false := by
    intro pat hm
    have := List.all_eq_true.mp halign pat hm
    simpa using this
  have bndry : ∀ pat : List Char, pat ≠ [] → '\n' ∉ pat →
      occursB pat (pyImports.data ++ c) =
        (occursB pat pyImports.data || occursB pat c) := fun pat hpne hni =>
    occursB_append_lastNot hpne
      (show pyImports.data.getLast? = some '\n' from by decide) hni c
  have bndry2 : ∀ pat : List Char, pat ≠ [] → '\n' ∉ pat →
      occursB pat ((pyImports.data ++ c) ++ "\n\npdf.build(story)".data) =
        ((occursB pat pyImports.data || occursB pat c) ||
          occursB pat "\n\npdf.build(story)".data) := by
    intro pat hpne hni
    rw [occursB_append_headNot hpne
      (headNot_of_head_newline
        (show ("\n\npdf.build(story)".data).head? = some '\n' from by decide) hni) _,
      bndry pat hpne hni]
  -- step 1: the (corrupted) quote rule leaves the text unchanged
  have e1 : (quotesStep (c, [])).1 = c := quotesStep_text hw
  -- step 2: no unicode-fix key occurs
  have eU : applyFixes unicode_fixes (quotesStep (c, [])) = quotesStep (c, []) := by
    refine applyFixes_no_occurs ?_
    intro e he
    simp only [unicode_fixes, List.mem_cons, List.not_mem_nil, or_false] at he
    rcases he with rfl | rfl | rfl | rfl
    · rw [e1]; exact huniF "\u2013" (by decide)
    · rw [e1]; exact huniF "\u2014" (by decide)
    · rw [e1]; exact huniF "\u2026" (by decide)
    · rw [e1]; exact huniF uniKey4 (by simp)
  -- step 3: the import block is prepended
  have eI : (pyImportsStep (quotesStep (c, []))).1 = pyImports.data ++ c := by
    rw [pyImportsStep_text (by rw [e1]; exact himp) (by rw [e1]; exact himp2)]
    show pyImports.data ++ (quotesStep (c, [])).1 = pyImports.data ++ c
    rw [e1]
  -- steps 4-5: no path or variable pattern occurs
  have eP : applyFixes path_fixes (pyImportsStep (quotesStep (c, []))) =
      pyImportsStep (quotesStep (c, [])) := by
    refine applyFixes_no_occurs ?_
    intro e he
    simp only [path_fixes, List.mem_cons, List.not_mem_nil, or_false] at he
    rcases he with rfl | rfl | rfl | rfl
    · rw [eI, bndry "/mnt/data/".data (by decide) (by decide),
        hof "/mnt/data/" (by decide)]
      decide
    · rw [eI, bndry "~/".data (by decide) (by decide), hof "~/" (by decide)]
      decide
    · rw [eI, bndry "C:\\".data (by decide) (by decide), hof "C:\\" (by decide)]
      decide
    · rw [eI, bndry "D:\\".data (by decide) (by decide), hof "D:\\" (by decide)]
      decide
  have eV : applyFixes var_fixes (pyImportsStep (quotesStep (c, []))) =
      pyImportsStep (quotesStep (c, [])) := by
    refine applyFixes_no_occurs ?_
    intro e he
    simp only [var_fixes, List.mem_cons, List.not_mem_nil, or_false] at he
    rcases he with rfl | rfl | rfl | rfl
    · rw [eI, bndry "fileName =".data (by decide) (by decide),
        hof "fileName =" (by decide)]
      decide
    · rw [eI, bndry "filename =".data (by decide) (by decide),
        hof "filename =" (by decide)]
      decide
    · rw [eI, bndry "pdfFile =".data (by decide) (by decide),
        hof "pdfFile =" (by decide)]
      decide
    · rw [eI, bndry "outputFile =".data (by decide) (by decide),
        hof "outputFile =" (by decide)]
      decide
  -- step 6: the third entry-point branch fires and appends the build call
  have eE : pyEntryStep (pyImportsStep (quotesStep (c, []))) =
      ((pyImportsStep (quotesStep (c, []))).1 ++ "\n\npdf.build(story)".data,
       (pyImportsStep (quotesStep (c, []))).2 ++ ["Added missing pdf.build(story)"]) := by
    refine pyEntryStep_branch3 ?_ ?_ ?_ ?_ ?_ ?_ ?_
    · rw [eI, bndry "def ".data (by decide) (by decide), hd]
      decide
    · rw [eI, bndry "Paragraph(".data (by decide) (by decide),
        bndry "Spacer(".data (by decide) (by decide),
        show occursB "Paragraph(".data pyImports.data = false from by decide,
        show occursB "Spacer(".data pyImports.data = false from by decide]
      simpa using hP
    · rw [eI, bndry "story = []".data (by decide) (by decide), hs]
      decide
    · rw [eI, bndry "pdf = SimpleDocTemplate(".data (by decide) (by decide), hsdt]
      decide
    · rw [eI]
      exact occursB_append_right _ ha
    · rw [eI, bndry "pdf.build(".data (by decide) (by decide), hpb]
      decide
    · rw [eI, bndry "doc.build(".data (by decide) (by decide), hdb]
      decide
  have etext : (pyEntryStep (pyImportsStep (quotesStep (c, [])))).1 =
      (pyImports.data ++ c) ++ "\n\npdf.build(story)".data := by
    rw [eE]
    show (pyImportsStep (quotesStep (c, []))).1 ++ "\n\npdf.build(story)".data = _
    rw [eI]
  -- steps 7-8: no alignment or syntax pattern occurs anywhere
  have eA : applyFixes alignment_fixes (pyEntryStep (pyImportsStep (quotesStep (c, [])))) =
      pyEntryStep (pyImportsStep (quotesStep (c, []))) := by
    refine applyFixes_no_occurs ?_
    intro e he
    simp only [alignment_fixes, List.mem_cons, List.not_mem_nil, or_false] at he
    rcases he with rfl | rfl | rfl | rfl | rfl | rfl | rfl | rfl
    · rw [etext, bndry2 "alignment=center".data (by decide) (by decide),
        hof2 "alignment=center" (by decide)]
      decide
    · rw [etext, bndry2 "alignment=\"center\"".data (by decide) (by decide),
        hof2 "alignment=\"center\"" (by decide)]
      decide
    · rw [etext, bndry2 "alignment=left".data (by decide) (by decide),
        hof2 "alignment=left" (by decide)]
      decide
    · rw [etext, bndry2 "alignment=\"left\"".data (by decide) (by decide),
        hof2 "alignment=\"left\"" (by decide)]
      decide
    · rw [etext, bndry2 "alignment=right".data (by decide) (by decide),
        hof2 "alignment=right" (by decide)]
      decide
    · rw [etext, bndry2 "alignment=\"right\"".data (by decide) (by decide),
        hof2 "alignment=\"right\"" (by decide)]
      decide
    · rw [etext, bndry2 "alignment=justify".data (by decide) (by decide),
        hof2 "alignment=justify" (by decide)]
      decide
    · rw [etext, bndry2 "alignment=\"justify\"".data (by decide) (by decide),
        hof2 "alignment=\"justify\"" (by decide)]
      decide
  have eS : applyFixes syntax_fixes (pyEntryStep (pyImportsStep (quotesStep (c, [])))) =
      pyEntryStep (pyImportsStep (quotesStep (c, []))) := by
    refine applyFixes_no_occurs ?_
    intro e he
    simp only [syntax_fixes, List.mem_cons, List.not_mem_nil, or_false] at he
    rcases he with rfl | rfl | rfl | rfl
    · rw [etext, bndry2 "colors.hexcolor(".data (by decide) (by decide),
        hof2 "colors.hexcolor(" (by decide)]
      decide
    · rw [etext, bndry2 "Colors.HexColor(".data (by decide) (by decide),
        hof2 "Colors.HexColor(" (by decide)]
      decide
    · rw [etext, bndry2 "getSampleStylesheet()".data (by decide) (by decide),
        hof2 "getSampleStylesheet()" (by decide)]
      decide
    · rw [etext, bndry2 "getStyleSheet()".data (by decide) (by decide),
        hof2 "getStyleSheet()" (by decide)]
      decide
  -- step 9: no `def ` anywhere, so the error-handling rule is skipped
  have eErr : pyErrStep (pyEntryStep (pyImportsStep (quotesStep (c, [])))) =
      pyEntryStep (pyImportsStep (quotesStep (c, []))) := by
    refine pyErrStep_id ?_
    rw [etext, bndry2 "def ".data (by decide) (by decide), hd]
    decide
  -- assemble
  have hchain : auto_fix_python_code c =
      pyErrStep (applyFixes syntax_fixes (applyFixes alignment_fixes (pyEntryStep
        (applyFixes var_fixes (applyFixes path_fixes (pyImportsStep
          (applyFixes unicode_fixes (quotesStep (c, []))))))))) := by
    simp only [auto_fix_python_code, runSteps, pythonSteps,
      List.foldl_cons, List.foldl_nil]
  have htext : (auto_fix_python_code c).1 =
      (pyImports.data ++ c) ++ "\n\npdf.build(story)".data := by
    rw [hchain, eU, eP, eV, eA, eS, eErr, etext]
  have hnopb : occursB "pdf.build(".data (pyImports.data ++ c) = false := by
    rw [bndry "pdf.build(".data (by decide) (by decide), hpb]
    decide
  refine ⟨htext, hnopb, ?_⟩
  rw [htext]
  rw [countOcc_append_headNot (by decide)
    (headNot_of_head_newline
      (show ("\n\npdf.build(story)".data).head? = some '\n' from by decide)
      (by decide)) _]
  rw [countOcc_append_lastNot (by decide)
    (show pyImports.data.getLast? = some '\n' from by decide) (by decide) c]
  rw [countOcc_eq_zero hpb]
  rw [show countOcc "pdf.build(".data pyImports.data = 0 from by decide]
  rw [show countOcc "pdf.build(".data "\n\npdf.build(story)".data = 1 from by decide]

/-- C3 witness: a concrete story-building snippet. -/
theorem C3_witness :
    occursB "story.append(".data "story.append(Paragraph('Hi'))".data = true ∧
    (auto_fix_python_code "story.append(Paragraph('Hi'))".data).1 =
      (pyImports.data ++ "story.append(Paragraph('Hi'))".data) ++
        "\n\npdf.build(story)".data ∧
    countOcc "pdf.build(".data
      (auto_fix_python_code "story.append(Paragraph('Hi'))".data).1 = 1 := by
  have h := C3_amended "story.append(Paragraph('Hi'))".data
    (by decide) (by decide) (by decide) (by decide) (by decide) (by decide)
    (by decide) (by decide) (by decide) (by decide) (by decide) (by decide)
    (by decide)
  exact ⟨by decide, h.1, h.2.2⟩

/-! ## Claim C10 -/

/-- A single-character pattern occurs exactly when the character is a
member of the string. -/
theorem occursB_single {a : Char} : ∀ {s : List Char}, occursB [a] s = true ↔ a ∈ s := by
  intro s
  induction s with
  | nil => simp [occursB]
  | cons c cs ih =>
    simp only [occursB, hasPre, Bool.or_eq_true, Bool.and_eq_true, decide_eq_true_eq,
      List.mem_cons]
    constructor
    · rintro (⟨h, _⟩ | h)
      · exact Or.inl h
      · exact Or.inr (ih.mp h)
    · rintro (h | h)
      · exact Or.inl ⟨h, trivial⟩
      · exact Or.inr (ih.mpr h)

/-- `&` occurs in a snippet exactly when the character is present. -/
theorem occursB_amp {s : List Char} : occursB "&".data s = true ↔ '&' ∈ s := by
  rw [show "&".data = ['&'] from by decide]
  exact occursB_single

/-- The four `html_fixes` loop iterations, beta-reduced. -/
def htmlBrEntry (acc : RW) : RW :=
  if occursB "<br>".data acc.1 && !(("<br>" : String) == "&amp;") then
    (replaceAll "<br>".data "<br/>".data acc.1,
     acc.2 ++ ["Fixed HTML: " ++ "<br>" ++ " → " ++ "<br/>"])
  else acc

/-- Second `html_fixes` iteration. -/
def htmlHrEntry (acc : RW) : RW :=
  if occursB "<hr>".data acc.1 && !(("<hr>" : String) == "&amp;") then
    (replaceAll "<hr>".data "<hr/>".data acc.1,
     acc.2 ++ ["Fixed HTML: " ++ "<hr>" ++ " → " ++ "<hr/>"])
  else acc

/-- Third `html_fixes` iteration (a self-replacement). -/
def htmlImgEntry (acc : RW) : RW :=
  if occursB "<img ".data acc.1 && !(("<img " : String) == "&amp;") then
    (replaceAll "<img ".data "<img ".data acc.1,
     acc.2 ++ ["Fixed HTML: " ++ "<img " ++ " → " ++ "<img "])
  else acc

/-- Fourth `html_fixes` iteration: the ampersand entry. -/
def htmlAmpEntry (acc : RW) : RW :=
  if occursB "&".data acc.1 && !(("&" : String) == "&amp;") then
    (replaceAll "&".data "&amp;".data acc.1,
     acc.2 ++ ["Fixed HTML: " ++ "&" ++ " → " ++ "&amp;"])
  else acc

/-- The `html_fixes` loop is the composition of its four iterations. -/
theorem htmlFixesStep_eq (st : RW) :
    htmlFixesStep st = htmlAmpEntry (htmlImgEntry (htmlHrEntry (htmlBrEntry st))) := by
  simp only [htmlFixesStep, html_fixes, List.foldl_cons, List.foldl_nil,
    htmlBrEntry, htmlHrEntry, htmlImgEntry, htmlAmpEntry]
/-- Iterations 1-3 preserve the loop invariants: no corrupted-quote pattern,
no shrinking, ampersands kept, logs only grow. -/
theorem htmlBrEntry_ok (acc : RW) (hq : occursB quoteWeird.data acc.1 = false) :
    occursB quoteWeird.data (htmlBrEntry acc).1 = false ∧
    acc.1.length ≤ (htmlBrEntry acc).1.length ∧
    ('&' ∈ acc.1 → '&' ∈ (htmlBrEntry acc).1) ∧
    (∀ x : String, x ∈ acc.2 → x ∈ (htmlBrEntry acc).2) := by
  unfold htmlBrEntry
  split
  · dsimp only
    refine ⟨occursB_replaceAll_false ?_ hq,
      length_replaceAll_ge ?_ ?_,
      fun h => mem_replaceAll_keep h ?_,
      fun x hx => List.mem_append_left _ hx⟩ <;> decide
  · exact ⟨hq, le_rfl, fun h => h, fun x hx => hx⟩

/-- Second iteration invariants. -/
theorem htmlHrEntry_ok (acc : RW) (hq : occursB quoteWeird.data acc.1 = false) :
    occursB quoteWeird.data (htmlHrEntry acc).1 = false ∧
    acc.1.length ≤ (htmlHrEntry acc).1.length ∧
    ('&' ∈ acc.1 → '&' ∈ (htmlHrEntry acc).1) ∧
    (∀ x : String, x ∈ acc.2 → x ∈ (htmlHrEntry acc).2) := by
  unfold htmlHrEntry
  split
  · dsimp only
    refine ⟨occursB_replaceAll_false ?_ hq,
      length_replaceAll_ge ?_ ?_,
      fun h => mem_replaceAll_keep h ?_,
      fun x hx => List.mem_append_left _ hx⟩ <;> decide
  · exact ⟨hq, le_rfl, fun h => h, fun x hx => hx⟩

/-- Third iteration invariants. -/
theorem htmlImgEntry_ok (acc : RW) (hq : occursB quoteWeird.data acc.1 = false) :
    occursB quoteWeird.data (htmlImgEntry acc).1 = false ∧
    acc.1.length ≤ (htmlImgEntry acc).1.length ∧
    ('&' ∈ acc.1 → '&' ∈ (htmlImgEntry acc).1) ∧
    (∀ x : String, x ∈ acc.2 → x ∈ (htmlImgEntry acc).2) := by
  unfold htmlImgEntry
  split
  · dsimp only
    refine ⟨occursB_replaceAll_false ?_ hq,
      length_replaceAll_ge ?_ ?_,
      fun h => mem_replaceAll_keep h ?_,
      fun x hx => List.mem_append_left _ hx⟩ <;> decide
  · exact ⟨hq, le_rfl, fun h => h, fun x hx => hx⟩

/-- The ampersand iteration always fires on a snippet containing `&`: the
text strictly grows, the fix record is appended, and an ampersand (from the
inserted `&amp;`) is still present afterwards. -/
theorem htmlAmpEntry_fire (acc : RW) (hq : occursB quoteWeird.data acc.1 = false)
    (ha : '&' ∈ acc.1) :
    occursB quoteWeird.data (htmlAmpEntry acc).1 = false ∧
    acc.1.length < (htmlAmpEntry acc).1.length ∧
    '&' ∈ (htmlAmpEntry acc).1 ∧
    "Fixed HTML: & → &amp;" ∈ (htmlAmpEntry acc).2 ∧
    (∀ x : String, x ∈ acc.2 → x ∈ (htmlAmpEntry acc).2) := by
  have hocc : occursB "&".data acc.1 = true := occursB_amp.mpr ha
  unfold htmlAmpEntry
  split
  · dsimp only
    have hrec : "Fixed HTML: & → &amp;" ∈
        acc.2 ++ ["Fixed HTML: " ++ "&" ++ " → " ++ "&amp;"] := by
      rw [show ("Fixed HTML: & → &amp;" : String) =
        "Fixed HTML: " ++ "&" ++ " → " ++ "&amp;" from by decide]
      exact List.mem_append_right _ (List.mem_singleton.mpr rfl)
    refine ⟨occursB_replaceAll_false ?_ hq,
      length_replaceAll_gt ?_ ?_ hocc,
      mem_replaceAll_of_occurs ?_ hocc ?_, hrec,
      fun x hx => List.mem_append_left _ hx⟩ <;> decide
  · rename_i hguard
    rw [hocc] at hguard
    exact absurd (by decide) hguard
/-- The corrupted quote rule preserves the loop invariants. -/
theorem quotesStep_ok (st : RW) (hq : occursB quoteWeird.data st.1 = false) :
    occursB quoteWeird.data (quotesStep st).1 = false ∧
    st.1.length ≤ (quotesStep st).1.length ∧
    ('&' ∈ st.1 → '&' ∈ (quotesStep st).1) ∧
    (∀ x : String, x ∈ st.2 → x ∈ (quotesStep st).2) := by
  have ht := quotesStep_text hq
  refine ⟨by rw [ht]; exact hq, by rw [ht], fun h => by rw [ht]; exact h, ?_⟩
  rcases quotesStep_fixes st with h | h
  · rw [h]; exact fun x hx => hx
  · rw [h]; exact fun x hx => List.mem_append_left _ hx

/-- The DOCTYPE rule preserves the loop invariants. -/
theorem htmlDoctypeStep_ok (st : RW) (hq : occursB quoteWeird.data st.1 = false) :
    occursB quoteWeird.data (htmlDoctypeStep st).1 = false ∧
    st.1.length ≤ (htmlDoctypeStep st).1.length ∧
    ('&' ∈ st.1 → '&' ∈ (htmlDoctypeStep st).1) ∧
    (∀ x : String, x ∈ st.2 → x ∈ (htmlDoctypeStep st).2) := by
  unfold htmlDoctypeStep
  split
  · dsimp only
    refine ⟨?_, ?_, fun h => List.mem_append_right _ h,
      fun x hx => List.mem_append_left _ hx⟩
    · rw [occursB_append_lastNot (by decide)
        (show ("<!DOCTYPE html>\n".data).getLast? = some '\n' from by decide)
        (by decide) st.1, hq]
      decide
    · rw [List.length_append]
      omega
  · exact ⟨hq, le_rfl, fun h => h, fun x hx => hx⟩

/-- The charset rule preserves the loop invariants. -/
theorem htmlCharsetStep_ok (st : RW) (hq : occursB quoteWeird.data st.1 = false) :
    occursB quoteWeird.data (htmlCharsetStep st).1 = false ∧
    st.1.length ≤ (htmlCharsetStep st).1.length ∧
    ('&' ∈ st.1 → '&' ∈ (htmlCharsetStep st).1) ∧
    (∀ x : String, x ∈ st.2 → x ∈ (htmlCharsetStep st).2) := by
  unfold htmlCharsetStep
  split
  · dsimp only
    refine ⟨occursB_replaceAll_false ?_ hq, length_replaceAll_ge ?_ ?_,
      fun h => mem_replaceAll_keep h ?_,
      fun x hx => List.mem_append_left _ hx⟩ <;> decide
  · exact ⟨hq, le_rfl, fun h => h, fun x hx => hx⟩

/-- The viewport rule preserves the loop invariants. -/
theorem htmlViewStep_ok (st : RW) (hq : occursB quoteWeird.data st.1 = false) :
    occursB quoteWeird.data (htmlViewStep st).1 = false ∧
    st.1.length ≤ (htmlViewStep st).1.length ∧
    ('&' ∈ st.1 → '&' ∈ (htmlViewStep st).1) ∧
    (∀ x : String, x ∈ st.2 → x ∈ (htmlViewStep st).2) := by
  unfold htmlViewStep
  split
  · dsimp only
    refine ⟨occursB_replaceAll_false ?_ hq, length_replaceAll_ge ?_ ?_,
      fun h => mem_replaceAll_keep h ?_,
      fun x hx => List.mem_append_left _ hx⟩ <;> decide
  · exact ⟨hq, le_rfl, fun h => h, fun x hx => hx⟩

/-- The document-wrapping rule preserves the loop invariants. -/
theorem htmlWrapStep_ok (st : RW) (hq : occursB quoteWeird.data st.1 = false) :
    occursB quoteWeird.data (htmlWrapStep st).1 = false ∧
    st.1.length ≤ (htmlWrapStep st).1.length ∧
    ('&' ∈ st.1 → '&' ∈ (htmlWrapStep st).1) ∧
    (∀ x : String, x ∈ st.2 → x ∈ (htmlWrapStep st).2) := by
  unfold htmlWrapStep
  split
  · dsimp only
    refine ⟨?_, ?_, fun h => List.mem_append.mpr
        (Or.inl (List.mem_append.mpr (Or.inr h))),
      fun x hx => List.mem_append_left _ hx⟩
    · rw [occursB_append_headNot (by decide)
        (headNot_of_head_newline
          (show (htmlWrapPost.data).head? = some '\n' from by decide) (by decide)) _,
        occursB_append_lastNot (by decide)
          (show (htmlWrapPre.data).getLast? = some '\n' from by decide)
          (by decide) st.1, hq]
      decide
    · rw [List.length_append, List.length_append]
      omega
  · exact ⟨hq, le_rfl, fun h => h, fun x hx => hx⟩

/-- The title rule preserves the loop invariants. -/
theorem htmlTitleStep_ok (st : RW) (hq : occursB quoteWeird.data st.1 = false) :
    occursB quoteWeird.data (htmlTitleStep st).1 = false ∧
    st.1.length ≤ (htmlTitleStep st).1.length ∧
    ('&' ∈ st.1 → '&' ∈ (htmlTitleStep st).1) ∧
    (∀ x : String, x ∈ st.2 → x ∈ (htmlTitleStep st).2) := by
  unfold htmlTitleStep
  split
  · dsimp only
    refine ⟨occursB_replaceAll_false ?_ hq, length_replaceAll_ge ?_ ?_,
      fun h => mem_replaceAll_keep h ?_,
      fun x hx => List.mem_append_left _ hx⟩ <;> decide
  · exact ⟨hq, le_rfl, fun h => h, fun x hx => hx⟩

/-- The whole `html_fixes` loop on a snippet containing an ampersand:
strict growth, appended ampersand record, ampersand still present. -/
theorem htmlFixesStep_fire (st : RW) (hq : occursB quoteWeird.data st.1 = false)
    (ha : '&' ∈ st.1) :
    occursB quoteWeird.data (htmlFixesStep st).1 = false ∧
    st.1.length < (htmlFixesStep st).1.length ∧
    '&' ∈ (htmlFixesStep st).1 ∧
    "Fixed HTML: & → &amp;" ∈ (htmlFixesStep st).2 ∧
    (∀ x : String, x ∈ st.2 → x ∈ (htmlFixesStep st).2) := by
  rw [htmlFixesStep_eq]
  have h1 := htmlBrEntry_ok st hq
  have h2 := htmlHrEntry_ok (htmlBrEntry st) h1.1
  have h3 := htmlImgEntry_ok (htmlHrEntry (htmlBrEntry st)) h2.1
  have h4 := htmlAmpEntry_fire (htmlImgEntry (htmlHrEntry (htmlBrEntry st))) h3.1
    (h3.2.2.1 (h2.2.2.1 (h1.2.2.1 ha)))
  refine ⟨h4.1, ?_, h4.2.2.1, h4.2.2.2.1, ?_⟩
  · calc st.1.length ≤ (htmlBrEntry st).1.length := h1.2.1
      _ ≤ (htmlHrEntry (htmlBrEntry st)).1.length := h2.2.1
      _ ≤ (htmlImgEntry (htmlHrEntry (htmlBrEntry st))).1.length := h3.2.1
      _ < _ := h4.2.1
  · intro x hx
    exact h4.2.2.2.2 x (h3.2.2.2 x (h2.2.2.2 x (h1.2.2.2 x hx)))
/-- One pass of the html fixer on a snippet containing `&` (and free of the
corrupted quote-rule pattern): the text strictly grows, the ampersand
record is logged, and an ampersand is still present in the output. -/
theorem auto_fix_html_pass (c : List Char) (hq : occursB quoteWeird.data c = false)
    (ha : '&' ∈ c) :
    occursB quoteWeird.data (auto_fix_html_code c).1 = false ∧
    c.length < (auto_fix_html_code c).1.length ∧
    '&' ∈ (auto_fix_html_code c).1 ∧
    "Fixed HTML: & → &amp;" ∈ (auto_fix_html_code c).2 := by
  have hchain : auto_fix_html_code c =
      htmlTitleStep (htmlFixesStep (htmlWrapStep (htmlViewStep (htmlCharsetStep
        (htmlDoctypeStep (quotesStep (c, []))))))) := by
    simp only [auto_fix_html_code, runSteps, htmlSteps,
      List.foldl_cons, List.foldl_nil]
  have o1 := quotesStep_ok (c, []) hq
  have o2 := htmlDoctypeStep_ok (quotesStep (c, [])) o1.1
  have o3 := htmlCharsetStep_ok (htmlDoctypeStep (quotesStep (c, []))) o2.1
  have o4 := htmlViewStep_ok (htmlCharsetStep (htmlDoctypeStep (quotesStep (c, [])))) o3.1
  have o5 := htmlWrapStep_ok
    (htmlViewStep (htmlCharsetStep (htmlDoctypeStep (quotesStep (c, []))))) o4.1
  have o6 := htmlFixesStep_fire
    (htmlWrapStep (htmlViewStep (htmlCharsetStep (htmlDoctypeStep (quotesStep (c, []))))))
    o5.1
    (o5.2.2.1 (o4.2.2.1 (o3.2.2.1 (o2.2.2.1 (o1.2.2.1 ha)))))
  have o7 := htmlTitleStep_ok
    (htmlFixesStep (htmlWrapStep (htmlViewStep (htmlCharsetStep
      (htmlDoctypeStep (quotesStep (c, []))))))) o6.1
  rw [hchain]
  refine ⟨o7.1, ?_, o7.2.2.1 o6.2.2.1, o7.2.2.2 _ o6.2.2.2.1⟩
  calc c.length
      ≤ (quotesStep (c, [])).1.length := o1.2.1
    _ ≤ (htmlDoctypeStep (quotesStep (c, []))).1.length := o2.2.1
    _ ≤ (htmlCharsetStep (htmlDoctypeStep (quotesStep (c, [])))).1.length := o3.2.1
    _ ≤ (htmlViewStep (htmlCharsetStep (htmlDoctypeStep
          (quotesStep (c, []))))).1.length := o4.2.1
    _ ≤ (htmlWrapStep (htmlViewStep (htmlCharsetStep (htmlDoctypeStep
          (quotesStep (c, [])))))).1.length := o5.2.1
    _ < (htmlFixesStep (htmlWrapStep (htmlViewStep (htmlCharsetStep (htmlDoctypeStep
          (quotesStep (c, []))))))).1.length := o6.2.1
    _ ≤ _ := o7.2.1

/-- C10: the `&` entry of `html_fixes` replaces every ampersand (its
`old != '&amp;'` guard compares the key `&` and is vacuously true), acting
even on ampersands inside entities; one pass of `auto_fix_html_code` on a
snippet containing `&` logs the ampersand record and leaves an `&` in the
output, so a second pass strictly grows the text and logs the record
again: the html rule set is not idempotent. -/
theorem C10_theorem (c : List Char)
    (hamp : occursB "&".data c = true)
    (hw : occursB quoteWeird.data c = false) :
    (∀ s : List Char, replaceAll "&".data "&amp;".data s =
        s.flatMap (fun x => if x = '&' then "&amp;".data else [x])) ∧
    occursB "&".data (auto_fix_html_code c).1 = true ∧
    "Fixed HTML: & → &amp;" ∈ (auto_fix_html_code c).2 ∧
    (auto_fix_html_code c).1.length <
      (auto_fix_html_code (auto_fix_html_code c).1).1.length ∧
    "Fixed HTML: & → &amp;" ∈ (auto_fix_html_code (auto_fix_html_code c).1).2 ∧
    (auto_fix_html_code (auto_fix_html_code c).1).1 ≠ (auto_fix_html_code c).1 := by
  have p1 := auto_fix_html_pass c hw (occursB_amp.mp hamp)
  have p2 := auto_fix_html_pass (auto_fix_html_code c).1 p1.1 p1.2.2.1
  refine ⟨?_, occursB_amp.mpr p1.2.2.1, p1.2.2.2, p2.2.1, p2.2.2.2, ?_⟩
  · intro s
    rw [show "&".data = ['&'] from by decide]
    exact replaceAll_single_expand '&' _ s
  · intro he
    have hl := p2.2.1
    rw [he] at hl
    exact lt_irrefl _ hl

/-- C10 witness: a snippet with a bare ampersand. -/
theorem C10_witness :
    occursB "&".data "a & b".data = true ∧
    occursB quoteWeird.data "a & b".data = false ∧
    occursB "&".data (auto_fix_html_code "a & b".data).1 = true ∧
    "Fixed HTML: & → &amp;" ∈ (auto_fix_html_code "a & b".data).2 ∧
    (auto_fix_html_code "a & b".data).1.length <
      (auto_fix_html_code (auto_fix_html_code "a & b".data).1).1.length := by
  have h := C10_theorem "a & b".data (by decide) (by decide)
  exact ⟨by decide, by decide, h.2.1, h.2.2.1, h.2.2.2.1⟩
end Inks
